import Mathlib

/-!
# MapStructs (src/main.go, lines 94-105)

A shallow embedding of the reflection based field copier of the repository,
together with the part of the Go `reflect` package it calls.

Memory is a map from addresses to objects.  The two arguments of `MapStructs`
are `interface{}` values, so each is a nil interface, a pointer (possibly a
typed nil pointer) or some non-pointer value.  A call can panic part way
through the loop; the model therefore returns the memory reached together
with the panic, if any.

A record field may itself hold a struct, and may be embedded; `FieldByName`
then also finds the fields promoted from embedded structs, at any depth, by
the rule of the Go language: the shallowest depth that has the name decides,
and two fields of that name at that depth cancel each other.

Modelling limits, stated once:
* field types are the scalar types that occur in the records of the
  repository, `interface{}`, and struct types, named or unnamed, built from
  these; pointer, slice, map and other interface types are left out, and so
  are structs embedded through a pointer;
* a float64 is kept as its IEEE bit pattern and is only ever copied, never
  computed with;
* upper case letters are those of general category Lu, as in the table
  `unicode.Upper` of Unicode 15.0.
-/

namespace MapStructsModel

/-! ## Data model -/

mutual
/-- Declared types of record fields and of non-record variables.  A struct
type with the empty name is an unnamed struct type. -/
inductive GoType where
  | int
  | int64
  | float64
  | string
  | time
  | any
  | struct (name : String) (fields : Decls)
  deriving DecidableEq, Repr
/-- The field declarations of a struct type, in declaration order. -/
inductive Decls where
  | nil
  | cons (name : String) (embedded : Bool) (typ : GoType) (rest : Decls)
  deriving DecidableEq, Repr
end

mutual
/-- Runtime values, one constructor per dynamic type.  A variable of type
`interface{}` holds `nil` or any of the other scalar values; its dynamic type
is the constructor.  A struct value holds the values of its fields in
declaration order. -/
inductive Val where
  | int (n : Int)
  | int64 (n : Int)
  | float64 (bits : Nat)
  | str (s : String)
  | time (ns : Int)
  | nil
  | struct (vs : Vals)
  deriving DecidableEq, Repr
/-- The field values of a struct value. -/
inductive Vals where
  | nil
  | cons (v : Val) (vs : Vals)
  deriving DecidableEq, Repr
end

/-- One field of a record: declared name, declared type, current value, and
whether it is declared as an embedded field. -/
structure Field where
  name : String
  typ : GoType
  val : Val
  embedded : Bool
  deriving DecidableEq, Repr

/-- What a pointer can point to: a record, or a variable of a non-record type
(as in `*int`). -/
inductive Obj where
  | struct (fields : List Field)
  | other (t : GoType) (v : Val)
  deriving DecidableEq, Repr

abbrev Addr := Nat

/-- Memory: every address holds an object. -/
abbrev Heap := Addr → Obj

/-- The dynamic content of an `interface{}` argument. -/
inductive Arg where
  | nil
  | ptr (a : Option Addr)
  | nonptr (o : Obj)
  deriving DecidableEq, Repr

/-- The run-time panics of package reflect that `MapStructs` can raise. -/
inductive Panic where
  | valueError (method : String)
  | notAssignable (src dst : GoType)
  | unexportedValue
  | indexOutOfRange
  deriving DecidableEq, Repr

/-- A `reflect.Value` as held in `srcVal` and `dstVal`: the zero Value or an
addressable variable reached through a pointer. -/
inductive Value where
  | zero
  | var (a : Addr)
  deriving DecidableEq, Repr

/-- A `reflect.Value` obtained from `Field` or `FieldByName`: the zero Value,
or the field reached from the record at `a` along the index sequence `path`,
carrying its type and its read-only flag (set for unexported fields). -/
inductive FieldValue where
  | zero
  | field (a : Addr) (path : List Nat) (typ : GoType) (ro : Bool)
  deriving DecidableEq, Repr

/-- Result of a call: the memory reached and the panic raised, if any. -/
structure Outcome where
  heap : Heap
  err : Option Panic

/-- What the search for a promoted field finds at the shallowest depth that
has the name: one field, with its index sequence and type, or several. -/
inductive Hit where
  | unique (path : List Nat) (typ : GoType)
  | clash
  deriving DecidableEq, Repr

/-! ## Exported identifiers -/

/-- The ranges of the code points above ASCII that have general category Lu:
the table `unicode.Upper` without its first range. -/
def upperRanges : List (Nat × Nat) :=
  [(192, 214), (216, 222), (256, 256), (258, 258), (260, 260), (262, 262), (264, 264),
   (266, 266), (268, 268), (270, 270), (272, 272), (274, 274), (276, 276), (278, 278),
   (280, 280), (282, 282), (284, 284), (286, 286), (288, 288), (290, 290), (292, 292),
   (294, 294), (296, 296), (298, 298), (300, 300), (302, 302), (304, 304), (306, 306),
   (308, 308), (310, 310), (313, 313), (315, 315), (317, 317), (319, 319), (321, 321),
   (323, 323), (325, 325), (327, 327), (330, 330), (332, 332), (334, 334), (336, 336),
   (338, 338), (340, 340), (342, 342), (344, 344), (346, 346), (348, 348), (350, 350),
   (352, 352), (354, 354), (356, 356), (358, 358), (360, 360), (362, 362), (364, 364),
   (366, 366), (368, 368), (370, 370), (372, 372), (374, 374), (376, 377), (379, 379),
   (381, 381), (385, 386), (388, 388), (390, 391), (393, 395), (398, 401), (403, 404),
   (406, 408), (412, 413), (415, 416), (418, 418), (420, 420), (422, 423), (425, 425),
   (428, 428), (430, 431), (433, 435), (437, 437), (439, 440), (444, 444), (452, 452),
   (455, 455), (458, 458), (461, 461), (463, 463), (465, 465), (467, 467), (469, 469),
   (471, 471), (473, 473), (475, 475), (478, 478), (480, 480), (482, 482), (484, 484),
   (486, 486), (488, 488), (490, 490), (492, 492), (494, 494), (497, 497), (500, 500),
   (502, 504), (506, 506), (508, 508), (510, 510), (512, 512), (514, 514), (516, 516),
   (518, 518), (520, 520), (522, 522), (524, 524), (526, 526), (528, 528), (530, 530),
   (532, 532), (534, 534), (536, 536), (538, 538), (540, 540), (542, 542), (544, 544),
   (546, 546), (548, 548), (550, 550), (552, 552), (554, 554), (556, 556), (558, 558),
   (560, 560), (562, 562), (570, 571), (573, 574), (577, 577), (579, 582), (584, 584),
   (586, 586), (588, 588), (590, 590), (880, 880), (882, 882), (886, 886), (895, 895),
   (902, 902), (904, 906), (908, 908), (910, 911), (913, 929), (931, 939), (975, 975),
   (978, 980), (984, 984), (986, 986), (988, 988), (990, 990), (992, 992), (994, 994),
   (996, 996), (998, 998), (1000, 1000), (1002, 1002), (1004, 1004), (1006, 1006), (1012, 1012),
   (1015, 1015), (1017, 1018), (1021, 1071), (1120, 1120), (1122, 1122), (1124, 1124),
   (1126, 1126), (1128, 1128), (1130, 1130), (1132, 1132), (1134, 1134), (1136, 1136),
   (1138, 1138), (1140, 1140), (1142, 1142), (1144, 1144), (1146, 1146), (1148, 1148),
   (1150, 1150), (1152, 1152), (1162, 1162), (1164, 1164), (1166, 1166), (1168, 1168),
   (1170, 1170), (1172, 1172), (1174, 1174), (1176, 1176), (1178, 1178), (1180, 1180),
   (1182, 1182), (1184, 1184), (1186, 1186), (1188, 1188), (1190, 1190), (1192, 1192),
   (1194, 1194), (1196, 1196), (1198, 1198), (1200, 1200), (1202, 1202), (1204, 1204),
   (1206, 1206), (1208, 1208), (1210, 1210), (1212, 1212), (1214, 1214), (1216, 1217),
   (1219, 1219), (1221, 1221), (1223, 1223), (1225, 1225), (1227, 1227), (1229, 1229),
   (1232, 1232), (1234, 1234), (1236, 1236), (1238, 1238), (1240, 1240), (1242, 1242),
   (1244, 1244), (1246, 1246), (1248, 1248), (1250, 1250), (1252, 1252), (1254, 1254),
   (1256, 1256), (1258, 1258), (1260, 1260), (1262, 1262), (1264, 1264), (1266, 1266),
   (1268, 1268), (1270, 1270), (1272, 1272), (1274, 1274), (1276, 1276), (1278, 1278),
   (1280, 1280), (1282, 1282), (1284, 1284), (1286, 1286), (1288, 1288), (1290, 1290),
   (1292, 1292), (1294, 1294), (1296, 1296), (1298, 1298), (1300, 1300), (1302, 1302),
   (1304, 1304), (1306, 1306), (1308, 1308), (1310, 1310), (1312, 1312), (1314, 1314),
   (1316, 1316), (1318, 1318), (1320, 1320), (1322, 1322), (1324, 1324), (1326, 1326),
   (1329, 1366), (4256, 4293), (4295, 4295), (4301, 4301), (5024, 5109), (7312, 7354),
   (7357, 7359), (7680, 7680), (7682, 7682), (7684, 7684), (7686, 7686), (7688, 7688),
   (7690, 7690), (7692, 7692), (7694, 7694), (7696, 7696), (7698, 7698), (7700, 7700),
   (7702, 7702), (7704, 7704), (7706, 7706), (7708, 7708), (7710, 7710), (7712, 7712),
   (7714, 7714), (7716, 7716), (7718, 7718), (7720, 7720), (7722, 7722), (7724, 7724),
   (7726, 7726), (7728, 7728), (7730, 7730), (7732, 7732), (7734, 7734), (7736, 7736),
   (7738, 7738), (7740, 7740), (7742, 7742), (7744, 7744), (7746, 7746), (7748, 7748),
   (7750, 7750), (7752, 7752), (7754, 7754), (7756, 7756), (7758, 7758), (7760, 7760),
   (7762, 7762), (7764, 7764), (7766, 7766), (7768, 7768), (7770, 7770), (7772, 7772),
   (7774, 7774), (7776, 7776), (7778, 7778), (7780, 7780), (7782, 7782), (7784, 7784),
   (7786, 7786), (7788, 7788), (7790, 7790), (7792, 7792), (7794, 7794), (7796, 7796),
   (7798, 7798), (7800, 7800), (7802, 7802), (7804, 7804), (7806, 7806), (7808, 7808),
   (7810, 7810), (7812, 7812), (7814, 7814), (7816, 7816), (7818, 7818), (7820, 7820),
   (7822, 7822), (7824, 7824), (7826, 7826), (7828, 7828), (7838, 7838), (7840, 7840),
   (7842, 7842), (7844, 7844), (7846, 7846), (7848, 7848), (7850, 7850), (7852, 7852),
   (7854, 7854), (7856, 7856), (7858, 7858), (7860, 7860), (7862, 7862), (7864, 7864),
   (7866, 7866), (7868, 7868), (7870, 7870), (7872, 7872), (7874, 7874), (7876, 7876),
   (7878, 7878), (7880, 7880), (7882, 7882), (7884, 7884), (7886, 7886), (7888, 7888),
   (7890, 7890), (7892, 7892), (7894, 7894), (7896, 7896), (7898, 7898), (7900, 7900),
   (7902, 7902), (7904, 7904), (7906, 7906), (7908, 7908), (7910, 7910), (7912, 7912),
   (7914, 7914), (7916, 7916), (7918, 7918), (7920, 7920), (7922, 7922), (7924, 7924),
   (7926, 7926), (7928, 7928), (7930, 7930), (7932, 7932), (7934, 7934), (7944, 7951),
   (7960, 7965), (7976, 7983), (7992, 7999), (8008, 8013), (8025, 8025), (8027, 8027),
   (8029, 8029), (8031, 8031), (8040, 8047), (8120, 8123), (8136, 8139), (8152, 8155),
   (8168, 8172), (8184, 8187), (8450, 8450), (8455, 8455), (8459, 8461), (8464, 8466),
   (8469, 8469), (8473, 8477), (8484, 8484), (8486, 8486), (8488, 8488), (8490, 8493),
   (8496, 8499), (8510, 8511), (8517, 8517), (8579, 8579), (11264, 11311), (11360, 11360),
   (11362, 11364), (11367, 11367), (11369, 11369), (11371, 11371), (11373, 11376),
   (11378, 11378), (11381, 11381), (11390, 11392), (11394, 11394), (11396, 11396),
   (11398, 11398), (11400, 11400), (11402, 11402), (11404, 11404), (11406, 11406),
   (11408, 11408), (11410, 11410), (11412, 11412), (11414, 11414), (11416, 11416),
   (11418, 11418), (11420, 11420), (11422, 11422), (11424, 11424), (11426, 11426),
   (11428, 11428), (11430, 11430), (11432, 11432), (11434, 11434), (11436, 11436),
   (11438, 11438), (11440, 11440), (11442, 11442), (11444, 11444), (11446, 11446),
   (11448, 11448), (11450, 11450), (11452, 11452), (11454, 11454), (11456, 11456),
   (11458, 11458), (11460, 11460), (11462, 11462), (11464, 11464), (11466, 11466),
   (11468, 11468), (11470, 11470), (11472, 11472), (11474, 11474), (11476, 11476),
   (11478, 11478), (11480, 11480), (11482, 11482), (11484, 11484), (11486, 11486),
   (11488, 11488), (11490, 11490), (11499, 11499), (11501, 11501), (11506, 11506),
   (42560, 42560), (42562, 42562), (42564, 42564), (42566, 42566), (42568, 42568),
   (42570, 42570), (42572, 42572), (42574, 42574), (42576, 42576), (42578, 42578),
   (42580, 42580), (42582, 42582), (42584, 42584), (42586, 42586), (42588, 42588),
   (42590, 42590), (42592, 42592), (42594, 42594), (42596, 42596), (42598, 42598),
   (42600, 42600), (42602, 42602), (42604, 42604), (42624, 42624), (42626, 42626),
   (42628, 42628), (42630, 42630), (42632, 42632), (42634, 42634), (42636, 42636),
   (42638, 42638), (42640, 42640), (42642, 42642), (42644, 42644), (42646, 42646),
   (42648, 42648), (42650, 42650), (42786, 42786), (42788, 42788), (42790, 42790),
   (42792, 42792), (42794, 42794), (42796, 42796), (42798, 42798), (42802, 42802),
   (42804, 42804), (42806, 42806), (42808, 42808), (42810, 42810), (42812, 42812),
   (42814, 42814), (42816, 42816), (42818, 42818), (42820, 42820), (42822, 42822),
   (42824, 42824), (42826, 42826), (42828, 42828), (42830, 42830), (42832, 42832),
   (42834, 42834), (42836, 42836), (42838, 42838), (42840, 42840), (42842, 42842),
   (42844, 42844), (42846, 42846), (42848, 42848), (42850, 42850), (42852, 42852),
   (42854, 42854), (42856, 42856), (42858, 42858), (42860, 42860), (42862, 42862),
   (42873, 42873), (42875, 42875), (42877, 42878), (42880, 42880), (42882, 42882),
   (42884, 42884), (42886, 42886), (42891, 42891), (42893, 42893), (42896, 42896),
   (42898, 42898), (42902, 42902), (42904, 42904), (42906, 42906), (42908, 42908),
   (42910, 42910), (42912, 42912), (42914, 42914), (42916, 42916), (42918, 42918),
   (42920, 42920), (42922, 42926), (42928, 42932), (42934, 42934), (42936, 42936),
   (42938, 42938), (42940, 42940), (42942, 42942), (42944, 42944), (42946, 42946),
   (42948, 42951), (42953, 42953), (42960, 42960), (42966, 42966), (42968, 42968),
   (42997, 42997), (65313, 65338), (66560, 66599), (66736, 66771), (66928, 66938),
   (66940, 66954), (66956, 66962), (66964, 66965), (68736, 68786), (71840, 71871),
   (93760, 93791), (119808, 119833), (119860, 119885), (119912, 119937), (119964, 119964),
   (119966, 119967), (119970, 119970), (119973, 119974), (119977, 119980), (119982, 119989),
   (120016, 120041), (120068, 120069), (120071, 120074), (120077, 120084), (120086, 120092),
   (120120, 120121), (120123, 120126), (120128, 120132), (120134, 120134), (120138, 120144),
   (120172, 120197), (120224, 120249), (120276, 120301), (120328, 120353), (120380, 120405),
   (120432, 120457), (120488, 120512), (120546, 120570), (120604, 120628), (120662, 120686),
   (120720, 120744), (120778, 120778), (125184, 125217)]

/-- `unicode.IsUpper`. -/
def isUpper (c : Char) : Bool :=
  if c.toNat < 128 then decide (65 ≤ c.toNat ∧ c.toNat ≤ 90)
  else upperRanges.any (fun r => decide (r.1 ≤ c.toNat ∧ c.toNat ≤ r.2))

/-- Go exports an identifier when it starts with an upper case letter. -/
def isExported (name : String) : Bool :=
  match name.data with
  | [] => false
  | c :: _ => isUpper c

/-! ## Struct values and their fields -/

/-- The fields of an object; a non-record has none. -/
def Obj.fields : Obj → List Field
  | .struct fs => fs
  | .other _ _ => []

/-- The `i`-th of the field values. -/
def Vals.get? : Vals → Nat → Option Val
  | .nil, _ => none
  | .cons v _, 0 => some v
  | .cons _ vs, i + 1 => Vals.get? vs i

/-- The field values with `f` applied to the `i`-th. -/
def Vals.modify (f : Val → Val) : Nat → Vals → Vals
  | _, .nil => .nil
  | 0, .cons v vs => .cons (f v) vs
  | i + 1, .cons v vs => .cons v (Vals.modify f i vs)

/-- The value found inside `v` along an index sequence. -/
def Val.read : List Nat → Val → Option Val
  | [], v => some v
  | i :: p, .struct vs =>
    match vs.get? i with
    | some v => Val.read p v
    | none => none
  | _ :: _, _ => none

/-- The value `v` with `w` stored along an index sequence. -/
def Val.write : List Nat → Val → Val → Val
  | [], w, _ => w
  | i :: p, w, .struct vs => .struct (vs.modify (Val.write p w) i)
  | _ :: _, _, v => v

/-- The field `f` with its value replaced by `w`. -/
def setVal (w : Val) (f : Field) : Field := ⟨f.name, f.typ, w, f.embedded⟩

/-- The field `f` with `w` stored inside its value along an index sequence. -/
def writeField (p : List Nat) (w : Val) (f : Field) : Field :=
  setVal (Val.write p w f.val) f

/-- The fields of a record with `w` stored along an index sequence, whose
first index selects the field. -/
def storeFields : List Nat → Val → List Field → List Field
  | [], _, fs => fs
  | i :: p, w, fs => fs.modify (writeField p w) i

/-! ## Finding a field by name -/

/-- Position of the first declared field called `name`. -/
def fieldIndex (name : String) : List Field → Option Nat
  | [] => none
  | f :: fs => if f.name = name then some 0 else (fieldIndex name fs).map (· + 1)

/-- A hit inside the field at index `i`. -/
def Hit.under (i : Nat) : Hit → Hit
  | .unique p t => .unique (i :: p) t
  | .clash => .clash

/-- A search result inside the field at index `i`, seen from the struct that
declares the field: one level deeper. -/
def below (i : Nat) : Option (Nat × Hit) → Option (Nat × Hit)
  | none => none
  | some (d, x) => some (d + 1, x.under i)

/-- The search results of two embedded fields of one struct combined: the
shallower wins, and at equal depth the name is ambiguous. -/
def merge : Option (Nat × Hit) → Option (Nat × Hit) → Option (Nat × Hit)
  | none, r => r
  | some l, none => some l
  | some (d1, x1), some (d2, x2) =>
    if d1 < d2 then some (d1, x1) else if d2 < d1 then some (d2, x2) else some (d1, .clash)

/-- The declared fields called `name`, with their positions counted from `i`. -/
def Decls.direct (name : String) : Decls → Nat → List (Nat × GoType)
  | .nil, _ => []
  | .cons n _ t rest, i =>
    if n = name then (i, t) :: Decls.direct name rest (i + 1)
    else Decls.direct name rest (i + 1)

/-- A struct type searched: its own fields of that name decide, and only when
there is none do the embedded structs. -/
def pick (direct : List (Nat × GoType)) (deeper : Option (Nat × Hit)) : Option (Nat × Hit) :=
  match direct with
  | [] => deeper
  | [(i, t)] => some (0, .unique [i] t)
  | _ :: _ :: _ => some (0, .clash)

mutual
/-- The search of `Type.FieldByName` inside a struct type: the depth of the
shallowest fields called `name`, and what is found there. -/
def GoType.find (name : String) : GoType → Option (Nat × Hit)
  | .struct _ ds => pick (Decls.direct name ds 0) (Decls.deeper name ds 0)
  | _ => none
/-- The search below the embedded fields of a declaration list whose first
position is `i`. -/
def Decls.deeper (name : String) : Decls → Nat → Option (Nat × Hit)
  | .nil, _ => none
  | .cons _ e t rest, i =>
    merge (if e then below i (GoType.find name t) else none) (Decls.deeper name rest (i + 1))
end

/-- The search below the embedded fields of a record whose first position is
`i`. -/
def promoted (name : String) : List Field → Nat → Option (Nat × Hit)
  | [], _ => none
  | f :: fs, i =>
    merge (if f.embedded then below i (GoType.find name f.typ) else none)
      (promoted name fs (i + 1))

/-- `Type.FieldByName` on the type of a record: the index sequence and the
type of the field called `name`.  A declared field is found first; otherwise
the fields promoted from embedded structs are searched, and an ambiguous name
is not found. -/
def structFieldByName (name : String) (fs : List Field) : Option (List Nat × GoType) :=
  match fieldIndex name fs with
  | some i =>
    match fs[i]? with
    | some f => some ([i], f.typ)
    | none => none
  | none =>
    match promoted name fs 0 with
    | some (_, .unique p t) => some (p, t)
    | _ => none

/-! ## The part of package reflect used by MapStructs -/

/-- `reflect.ValueOf(x).Elem()`.  `ValueOf` of a nil interface is the zero
Value and `Elem` panics on it; `Elem` panics on every kind other than pointer
and interface, and `ValueOf` never yields an interface; `Elem` of a nil
pointer is the zero Value, without a panic. -/
def valueOfElem : Arg → Except Panic Value
  | .nil => .error (.valueError "Elem")
  | .nonptr _ => .error (.valueError "Elem")
  | .ptr none => .ok .zero
  | .ptr (some a) => .ok (.var a)

/-- `v.NumField()`: panics unless `v` has kind struct. -/
def NumField (h : Heap) : Value → Except Panic Nat
  | .zero => .error (.valueError "NumField")
  | .var a =>
    match h a with
    | .struct fs => .ok fs.length
    | .other _ _ => .error (.valueError "NumField")

/-- `v.Type().Field(i).Name`. -/
def fieldName (h : Heap) : Value → Nat → Except Panic String
  | .zero, _ => .error (.valueError "Type")
  | .var a, i =>
    match h a with
    | .struct fs =>
      match fs[i]? with
      | some f => .ok f.name
      | none => .error .indexOutOfRange
    | .other _ _ => .error (.valueError "Field")

/-- `v.Field(i)`. -/
def fieldValue (h : Heap) : Value → Nat → Except Panic FieldValue
  | .zero, _ => .error (.valueError "Field")
  | .var a, i =>
    match h a with
    | .struct fs =>
      match fs[i]? with
      | some f => .ok (.field a [i] f.typ (!isExported f.name))
      | none => .error .indexOutOfRange
    | .other _ _ => .error (.valueError "Field")

/-- `v.FieldByName(name)`: panics unless `v` has kind struct; the zero Value
when the record has no such field.  The field found is called `name`, and it
is read-only exactly when that name is unexported: the embedded fields passed
on the way do not hand their own read-only flag down. -/
def FieldByName (h : Heap) : Value → String → Except Panic FieldValue
  | .zero, _ => .error (.valueError "FieldByName")
  | .var a, name =>
    match h a with
    | .struct fs =>
      match structFieldByName name fs with
      | some (p, t) => .ok (.field a p t (!isExported name))
      | none => .ok .zero
    | .other _ _ => .error (.valueError "FieldByName")

/-- `v.IsValid()`. -/
def IsValid : FieldValue → Bool
  | .zero => false
  | .field _ _ _ _ => true

/-- `v.CanSet()`: addressable and not read-only.  A field reached through a
pointer is addressable. -/
def CanSet : FieldValue → Bool
  | .zero => false
  | .field _ _ _ ro => !ro

/-- Two struct types with identical underlying types of which at least one is
unnamed. -/
def sameUnderlying : GoType → GoType → Bool
  | .struct n ds, .struct m es => decide (ds = es) && (decide (n = "") || decide (m = ""))
  | _, _ => false

/-- The check of `Value.assignTo`: a value of type `src` may be stored in a
variable of type `dst` when the types are identical, when `dst` is
`interface{}` (which every type implements), or when both are struct types
with identical underlying types and one of them is unnamed; otherwise there is
no result and the caller panics. -/
def assignTo (dst src : GoType) (v : Val) : Option Val :=
  if dst = src then some v
  else if dst = GoType.any then some v
  else if sameUnderlying dst src then some v
  else none

/-- The value currently stored in the field reached from the record at `a`
along `path`. -/
def load (h : Heap) (a : Addr) : List Nat → Val
  | [] => Val.nil
  | i :: p =>
    match (h a).fields[i]? with
    | some f =>
      match Val.read p f.val with
      | some v => v
      | none => Val.nil
    | none => Val.nil

/-- Store `w` in the field reached from the record at `a` along `path`. -/
def store (h : Heap) (a : Addr) (path : List Nat) (w : Val) : Heap :=
  fun b =>
    if b = a then
      match h a with
      | .struct fs => .struct (storeFields path w fs)
      | .other t v => .other t v
    else h b

/-- `v.Set(x)`: panics when `v` is not settable, when `x` is the zero Value or
was obtained through an unexported field, and when the value of `x` is not
assignable to the type of `v`; otherwise stores the value of `x` in `v`. -/
def Set (h : Heap) : FieldValue → FieldValue → Except Panic Heap
  | .zero, _ => .error (.valueError "Set")
  | .field a p t ro, x =>
    if ro then .error .unexportedValue
    else
      match x with
      | .zero => .error (.valueError "Set")
      | .field b q u rox =>
        if rox then .error .unexportedValue
        else
          match assignTo t u (load h b q) with
          | none => .error (.notAssignable u t)
          | some w => .ok (store h a p w)

/-! ## MapStructs -/

/-- The body of the loop of `MapStructs` (lines 99-103) for index `i`. -/
def loopBody (dstVal srcVal : Value) (h : Heap) (i : Nat) : Except Panic Heap :=
  match fieldName h srcVal i with
  | .error p => .error p
  | .ok field =>
    match FieldByName h dstVal field with
    | .error p => .error p
    | .ok dstField =>
      if IsValid dstField && CanSet dstField then
        match fieldValue h srcVal i with
        | .error p => .error p
        | .ok x => Set h dstField x
      else .ok h

/-- The loop of `MapStructs` with `r` iterations left, the next one at index
`i`.  A panic ends the call and leaves the memory as the earlier iterations
wrote it. -/
def forLoop (dstVal srcVal : Value) : Nat → Nat → Heap → Outcome
  | 0, _, h => ⟨h, none⟩
  | r + 1, i, h =>
    match loopBody dstVal srcVal h i with
    | .error p => ⟨h, some p⟩
    | .ok h1 => forLoop dstVal srcVal r (i + 1) h1

/-- `MapStructs(dst, src)` run in memory `h`.  The bound `srcVal.NumField()`
depends on the type of `srcVal` only, so it is the same at every test of the
loop condition. -/
def MapStructs (h : Heap) (dst src : Arg) : Outcome :=
  match valueOfElem src with
  | .error p => ⟨h, some p⟩
  | .ok srcVal =>
    match valueOfElem dst with
    | .error p => ⟨h, some p⟩
    | .ok dstVal =>
      match NumField h srcVal with
      | .error p => ⟨h, some p⟩
      | .ok n => forLoop dstVal srcVal n 0 h

/-! ## The records of the repository and the call made in `main` -/

/-- `ProductPart{CorrelationNumber: 123, ID: "Lock"}` (lines 32-35, 56). -/
def productPart : Obj :=
  .struct [⟨"ID", .string, .str "Lock", false⟩, ⟨"CorrelationNumber", .int, .int 123, false⟩]

/-- `Product{}` (lines 37-40, 57): the zero value of each field. -/
def product : Obj :=
  .struct [⟨"ID", .string, .str "", false⟩, ⟨"Price", .float64, .float64 0, false⟩]

/-- Memory of `main` at line 59: `product` at address 0, `user` at address 1. -/
def mainHeap : Heap := fun a => if a = 0 then product else productPart

/-! ## Concrete memories used to evaluate the code -/

/-- A destination `struct{ ID string }` at address 0 and a source
`struct{ ID int }{7}` at address 1: one shared name, incompatible types. -/
def mismatchHeap : Heap := fun a =>
  if a = 0 then .struct [⟨"ID", .string, .str "", false⟩]
  else .struct [⟨"ID", .int, .int 7, false⟩]

/-- A destination `struct{ A int; B int }` at address 0, a source
`struct{ A int; B string }{1, "x"}` at address 1 and the same source with its
fields declared in the other order at address 2. -/
def orderHeap : Heap := fun a =>
  if a = 0 then .struct [⟨"A", .int, .int 0, false⟩, ⟨"B", .int, .int 0, false⟩]
  else if a = 1 then .struct [⟨"A", .int, .int 1, false⟩, ⟨"B", .string, .str "x", false⟩]
  else .struct [⟨"B", .string, .str "x", false⟩, ⟨"A", .int, .int 1, false⟩]

/-- An `int` variable at address 0 and a record without fields, `struct{}`,
everywhere else. -/
def scalarHeap : Heap := fun a =>
  if a = 0 then .other .int (.int 0) else .struct []

/-- The struct type `type Inner struct{ ID string }`. -/
def innerType : GoType := .struct "Inner" (.cons "ID" false .string .nil)

/-- A destination `struct{ Inner; Price float64 }` at address 0, whose first
field is the embedded struct `Inner`, and a source `struct{ ID string }{"Lock"}`
at address 1.  No declared field of the destination is called `ID`. -/
def promotedHeap : Heap := fun a =>
  if a = 0 then
    .struct [⟨"Inner", innerType, .struct (.cons (.str "") .nil), true⟩,
      ⟨"Price", .float64, .float64 0, false⟩]
  else .struct [⟨"ID", .string, .str "Lock", false⟩]

/-- The same destination at address 0 and a source
`struct{ CorrelationNumber int }{123}` at address 1. -/
def disjointHeap : Heap := fun a =>
  if a = 0 then
    .struct [⟨"Inner", innerType, .struct (.cons (.str "") .nil), true⟩,
      ⟨"Price", .float64, .float64 0, false⟩]
  else .struct [⟨"CorrelationNumber", .int, .int 123, false⟩]

/-- The fields of a destination
`struct{ ID string; Ünits int; Note interface{}; count int; Inner; Price float64 }`
with zero values, where `Inner` is embedded and declares `Code string`. -/
def wideFields : List Field :=
  [⟨"ID", .string, .str "", false⟩, ⟨"Ünits", .int, .int 0, false⟩,
    ⟨"Note", .any, .nil, false⟩, ⟨"count", .int, .int 0, false⟩,
    ⟨"Inner", .struct "Inner" (.cons "Code" false .string .nil),
      .struct (.cons (.str "") .nil), true⟩,
    ⟨"Price", .float64, .float64 0, false⟩]

/-- The fields of a source
`struct{ ID string; Ünits int; Note int; count int; CorrelationNumber int }`
holding `"Lock"`, 5, 7, 9 and 123. -/
def wideSource : List Field :=
  [⟨"ID", .string, .str "Lock", false⟩, ⟨"Ünits", .int, .int 5, false⟩,
    ⟨"Note", .int, .int 7, false⟩, ⟨"count", .int, .int 9, false⟩,
    ⟨"CorrelationNumber", .int, .int 123, false⟩]

/-- The destination `wideFields` at address 0 and the source `wideSource` at
address 1. -/
def wideHeap : Heap := fun a => if a = 0 then .struct wideFields else .struct wideSource

/-- The fields of a destination
`struct{ ID string; Ünits int; CorrelationNumber int; Price float64 }` with
zero values. -/
def fullFields : List Field :=
  [⟨"ID", .string, .str "", false⟩, ⟨"Ünits", .int, .int 0, false⟩,
    ⟨"CorrelationNumber", .int, .int 0, false⟩, ⟨"Price", .float64, .float64 0, false⟩]

/-- The fields of a source `struct{ ID string; Ünits int; CorrelationNumber int }`
holding `"Lock"`, 5 and 123. -/
def fullSource : List Field :=
  [⟨"ID", .string, .str "Lock", false⟩, ⟨"Ünits", .int, .int 5, false⟩,
    ⟨"CorrelationNumber", .int, .int 123, false⟩]

/-- The destination `fullFields` at address 0 and the source `fullSource` at
address 1. -/
def fullHeap : Heap := fun a => if a = 0 then .struct fullFields else .struct fullSource

/-! ## Notions used to state the properties -/

/-- The argument refers to a structured record: it is a non-nil pointer to a
struct. -/
def isRecord (h : Heap) : Arg → Bool
  | .ptr (some a) =>
    match h a with
    | .struct _ => true
    | .other _ _ => false
  | _ => false

/-- A legal Go struct type: field names other than the blank identifier are
pairwise distinct. -/
def DistinctNames (fs : List Field) : Prop :=
  (fs.map Field.name).Pairwise (fun a b => a = b → a = "_")

instance (fs : List Field) : Decidable (DistinctNames fs) := by
  unfold DistinctNames; infer_instance

/-- Every field name of the source `fs` that `FieldByName` finds in the
destination `fd` is the name of a declared field of `fd`: none is found only
as a field promoted from an embedded struct. -/
def DeclaredOnly (fd fs : List Field) : Prop :=
  ∀ g ∈ fs, fieldIndex g.name fd = none → structFieldByName g.name fd = none

instance (fd fs : List Field) : Decidable (DeclaredOnly fd fs) := by
  unfold DeclaredOnly; infer_instance

/-- The declared part of an object, with every field value erased: what a
call can not change. -/
def Obj.layout : Obj → Obj
  | .struct fs => .struct (fs.map (setVal Val.nil))
  | .other t v => .other t v

/-- The declared part of a field: name, type and whether it is embedded. -/
def Field.decl (f : Field) : String × GoType × Bool := (f.name, f.typ, f.embedded)

/-- What one iteration of the loop does to the destination. -/
inductive Step where
  | skip
  | fail (p : Panic)
  | write (path : List Nat) (w : Val)

/-- One iteration of the loop seen from the destination fields `fd`, for the
source field `g`: look the name up, skip when absent or unexported, panic when
the types do not fit, otherwise store the value. -/
def plan (fd : List Field) (g : Field) : Step :=
  match structFieldByName g.name fd with
  | none => .skip
  | some (p, t) =>
    if isExported g.name then
      match assignTo t g.typ g.val with
      | none => .fail (.notAssignable g.typ t)
      | some w => .write p w
    else .skip

/-- The destination fields after a step. -/
def Step.apply : Step → List Field → List Field
  | .skip, fd => fd
  | .fail _, fd => fd
  | .write p w, fd => storeFields p w fd

/-- The destination fields after a list of steps, the first step first. -/
def applyAll : List Step → List Field → List Field
  | [], fd => fd
  | s :: ss, fd => applyAll ss (s.apply fd)

/-- The steps that are run: those before the first panic. -/
def stepsRun : List Step → List Step
  | [] => []
  | .fail _ :: _ => []
  | .skip :: ss => .skip :: stepsRun ss
  | .write p w :: ss => .write p w :: stepsRun ss

/-- The first panic among the steps. -/
def firstFail : List Step → Option Panic
  | [] => none
  | .fail p :: _ => some p
  | .skip :: ss => firstFail ss
  | .write _ _ :: ss => firstFail ss

/-- The destination fields after one iteration, or its panic. -/
def copyField (fd : List Field) (g : Field) : Except Panic (List Field) :=
  match plan fd g with
  | .fail p => .error p
  | .skip => .ok fd
  | .write p w => .ok (storeFields p w fd)

/-- The iterations for the source fields `gs` in turn, stopping at the first
panic with the destination fields as written so far. -/
def copyFields (fd : List Field) : List Field → List Field × Option Panic
  | [] => (fd, none)
  | g :: gs =>
    match copyField fd g with
    | .error p => (fd, some p)
    | .ok fd1 => copyFields fd1 gs

/-- One iteration when only declared fields of the destination count. -/
def flatField (fd : List Field) (g : Field) : Except Panic (List Field) :=
  match fieldIndex g.name fd with
  | none => .ok fd
  | some j =>
    match fd[j]? with
    | none => .ok fd
    | some f =>
      if isExported f.name then
        if isExported g.name then
          match assignTo f.typ g.typ g.val with
          | none => .error (.notAssignable g.typ f.typ)
          | some w => .ok (fd.modify (setVal w) j)
        else .error .unexportedValue
      else .ok fd

/-- The iterations when only declared fields of the destination count. -/
def flatFields (fd : List Field) : List Field → List Field × Option Panic
  | [] => (fd, none)
  | g :: gs =>
    match flatField fd g with
    | .error p => (fd, some p)
    | .ok fd1 => flatFields fd1 gs

/-! ## The export test and the assignability test, pinned down -/

/-- The export test at names of each kind: ASCII upper case, upper case
outside ASCII, lower case, and the blank identifier. -/
theorem isExported_examples :
    isExported "ID" = true ∧ isExported "Ünits" = true ∧ isExported "Σ" = true ∧
    isExported "id" = false ∧ isExported "_" = false ∧ isExported "" = false := by
  decide

/-- A value is assignable exactly when the types are identical, the
destination type is `interface{}`, or both are struct types with identical
fields of which one is unnamed; the value stored is the value itself. -/
theorem assignTo_iff (dst src : GoType) (v w : Val) :
    assignTo dst src v = some w ↔
      w = v ∧ (dst = src ∨ dst = GoType.any ∨ sameUnderlying dst src = true) := by
  unfold assignTo
  split_ifs with h1 h2 h3
  · exact ⟨fun e => ⟨(Option.some.inj e).symm, Or.inl h1⟩, fun e => by rw [e.1]⟩
  · exact ⟨fun e => ⟨(Option.some.inj e).symm, Or.inr (Or.inl h2)⟩, fun e => by rw [e.1]⟩
  · exact ⟨fun e => ⟨(Option.some.inj e).symm, Or.inr (Or.inr h3)⟩, fun e => by rw [e.1]⟩
  · constructor
    · intro e
      exact e.elim
    · rintro ⟨_, e | e | e⟩
      · exact absurd e h1
      · exact absurd e h2
      · exact absurd e h3

/-- The direction of the `interface{}` rule, and the rule for unnamed struct
types, at concrete types. -/
theorem assignTo_examples :
    assignTo GoType.any GoType.int (Val.int 7) = some (Val.int 7) ∧
    assignTo GoType.int GoType.any (Val.int 7) = none ∧
    assignTo GoType.string GoType.int (Val.int 7) = none ∧
    assignTo (GoType.struct "" (Decls.cons "X" false GoType.int Decls.nil))
      (GoType.struct "T" (Decls.cons "X" false GoType.int Decls.nil)) Val.nil = some Val.nil ∧
    assignTo (GoType.struct "U" (Decls.cons "X" false GoType.int Decls.nil))
      (GoType.struct "T" (Decls.cons "X" false GoType.int Decls.nil)) Val.nil = none := by
  decide

/-! ## Calls with malformed arguments -/

/-- C3: with a nil interface as destination or as source the call panics, and
the memory is exactly what it was: no field has been written. -/
theorem nil_argument_fails (h : Heap) (x : Arg) :
    ((MapStructs h Arg.nil x).err.isSome = true ∧ (MapStructs h Arg.nil x).heap = h) ∧
    ((MapStructs h x Arg.nil).err.isSome = true ∧ (MapStructs h x Arg.nil).heap = h) := by
  refine ⟨?_, ?_⟩
  · rcases x with _ | (_ | a) | o
    · exact ⟨rfl, rfl⟩
    · exact ⟨rfl, rfl⟩
    · exact ⟨rfl, rfl⟩
    · exact ⟨rfl, rfl⟩
  · exact ⟨rfl, rfl⟩

/-- C4, as stated, fails: with a source record that has no field and a
destination that points to an `int`, the call returns without a panic. -/
theorem not_a_record_counterexample :
    isRecord scalarHeap (Arg.ptr (some 0)) = false ∧
    isRecord scalarHeap (Arg.ptr (some 1)) = true ∧
    (MapStructs scalarHeap (Arg.ptr (some 0)) (Arg.ptr (some 1))).err = none := by
  decide

/-- C4, amended: when the source or the destination is not a structured
record, the call changes nothing, and it panics except in one case: the source
is a record without fields and the destination is a pointer of any kind. -/
theorem not_a_record_fails (h : Heap) (dst src : Arg)
    (hbad : isRecord h src = false ∨ isRecord h dst = false) :
    (MapStructs h dst src).heap = h ∧
    ((MapStructs h dst src).err = none ↔
      ∃ sa p, src = Arg.ptr (some sa) ∧ h sa = Obj.struct [] ∧ dst = Arg.ptr p) := by
  rcases src with _ | (_ | sa) | o
  · simp [MapStructs, valueOfElem]
  · rcases dst with _ | (_ | da) | o <;> simp [MapStructs, valueOfElem, NumField]
  · rcases dst with _ | (_ | da) | o
    · simp [MapStructs, valueOfElem]
    · cases hsa : h sa with
      | other t v => simp [MapStructs, valueOfElem, NumField, hsa]
      | struct fs =>
        cases fs with
        | nil => simp [MapStructs, valueOfElem, NumField, hsa, forLoop]
        | cons g gs =>
          simp [MapStructs, valueOfElem, NumField, hsa, forLoop, loopBody, fieldName,
            FieldByName]
    · cases hsa : h sa with
      | other t v => simp [MapStructs, valueOfElem, NumField, hsa]
      | struct fs =>
        cases hda : h da with
        | struct fd => simp [isRecord, hsa, hda] at hbad
        | other t v =>
          cases fs with
          | nil => simp [MapStructs, valueOfElem, NumField, hsa, forLoop]
          | cons g gs =>
            simp [MapStructs, valueOfElem, NumField, hsa, hda, forLoop, loopBody, fieldName,
              FieldByName]
    · simp [MapStructs, valueOfElem]
  · simp [MapStructs, valueOfElem]

/-- Witness for `not_a_record_fails`: the `int` destination and the empty
source record of `scalarHeap`. -/
theorem not_a_record_fails_witness :
    (MapStructs scalarHeap (Arg.ptr (some 0)) (Arg.ptr (some 1))).heap = scalarHeap ∧
    ((MapStructs scalarHeap (Arg.ptr (some 0)) (Arg.ptr (some 1))).err = none ↔
      ∃ sa p, Arg.ptr (some 1) = Arg.ptr (some sa) ∧ scalarHeap sa = Obj.struct [] ∧
        Arg.ptr (some 0) = Arg.ptr p) :=
  not_a_record_fails scalarHeap (Arg.ptr (some 0)) (Arg.ptr (some 1)) (Or.inr (by decide))

/-! ## Evaluating the call of `main` and two further calls -/

/-- C6: the call of `main` returns without a panic and leaves
`Product{ID: "Lock", Price: 0.0}` in the destination. -/
theorem main_scenario :
    (MapStructs mainHeap (Arg.ptr (some 0)) (Arg.ptr (some 1))).err = none ∧
    (MapStructs mainHeap (Arg.ptr (some 0)) (Arg.ptr (some 1))).heap 0 =
      Obj.struct [⟨"ID", GoType.string, Val.str "Lock", false⟩,
        ⟨"Price", GoType.float64, Val.float64 0, false⟩] := by
  decide

/-- C2, on the code: a source field `ID int` meeting a settable destination
field `ID string` makes the call panic in `Set`; the destination keeps its
value. -/
theorem type_mismatch_panics :
    (MapStructs mismatchHeap (Arg.ptr (some 0)) (Arg.ptr (some 1))).err =
      some (Panic.notAssignable GoType.int GoType.string) ∧
    (MapStructs mismatchHeap (Arg.ptr (some 0)) (Arg.ptr (some 1))).heap 0 = mismatchHeap 0 := by
  decide

/-- C9, on the code: the sources at addresses 1 and 2 differ in field order
only, yet the first call has copied `A` before it panics on `B` while the
second panics on `B` before it reaches `A`. -/
theorem order_changes_destination :
    (MapStructs orderHeap (Arg.ptr (some 0)) (Arg.ptr (some 1))).heap 0 =
      Obj.struct [⟨"A", GoType.int, Val.int 1, false⟩, ⟨"B", GoType.int, Val.int 0, false⟩] ∧
    (MapStructs orderHeap (Arg.ptr (some 0)) (Arg.ptr (some 2))).heap 0 =
      Obj.struct [⟨"A", GoType.int, Val.int 0, false⟩, ⟨"B", GoType.int, Val.int 0, false⟩] ∧
    (MapStructs orderHeap (Arg.ptr (some 0)) (Arg.ptr (some 1))).err =
      some (Panic.notAssignable GoType.string GoType.int) ∧
    (MapStructs orderHeap (Arg.ptr (some 0)) (Arg.ptr (some 2))).err =
      some (Panic.notAssignable GoType.string GoType.int) := by
  decide

/-! ## What a call can change -/

theorem store_other (h : Heap) (a b : Addr) (p : List Nat) (w : Val) (hb : b ≠ a) :
    store h a p w b = h b := by
  simp [store, hb]

theorem map_erase_modify (k : Field → Field) (hk : ∀ f, setVal Val.nil (k f) = setVal Val.nil f)
    (fs : List Field) (i : Nat) :
    (fs.modify k i).map (setVal Val.nil) = fs.map (setVal Val.nil) := by
  induction fs generalizing i with
  | nil => simp
  | cons f fs ih =>
    cases i with
    | zero => simp [hk]
    | succ i => simp [ih]

theorem map_erase_store (p : List Nat) (w : Val) (fs : List Field) :
    (storeFields p w fs).map (setVal Val.nil) = fs.map (setVal Val.nil) := by
  cases p with
  | nil => rfl
  | cons i p =>
    show (fs.modify (writeField p w) i).map (setVal Val.nil) = fs.map (setVal Val.nil)
    exact map_erase_modify (writeField p w) (fun _ => rfl) fs i

theorem store_layout (h : Heap) (a b : Addr) (p : List Nat) (w : Val) :
    (store h a p w b).layout = (h b).layout := by
  by_cases hb : b = a
  · subst hb
    cases hba : h b with
    | struct fs => simp [store, hba, Obj.layout, map_erase_store]
    | other t v => simp [store, hba, Obj.layout]
  · rw [store_other h a b p w hb]

theorem FieldByName_field {h : Heap} {dv : Value} {n : String} {a : Addr} {p : List Nat}
    {t : GoType} {ro : Bool} (hf : FieldByName h dv n = Except.ok (FieldValue.field a p t ro)) :
    dv = Value.var a := by
  cases dv with
  | zero => simp [FieldByName] at hf
  | var b =>
    simp only [FieldByName] at hf
    cases hb : h b with
    | other t v => simp [hb] at hf
    | struct fs =>
      simp only [hb] at hf
      cases hi : structFieldByName n fs with
      | none => simp [hi] at hf
      | some k =>
        simp only [hi, Except.ok.injEq, FieldValue.field.injEq] at hf
        rw [hf.1]

theorem Set_ok {h h1 : Heap} {a : Addr} {p : List Nat} {t : GoType} {ro : Bool} {x : FieldValue}
    (hs : Set h (FieldValue.field a p t ro) x = Except.ok h1) : ∃ w, h1 = store h a p w := by
  simp only [Set] at hs
  split at hs
  · simp at hs
  · split at hs
    · simp at hs
    · split at hs
      · simp at hs
      · split at hs
        · simp at hs
        · injection hs with hs
          exact ⟨_, hs.symm⟩

theorem loopBody_ok {dv sv : Value} {h h1 : Heap} {i : Nat}
    (hb : loopBody dv sv h i = Except.ok h1) :
    h1 = h ∨ ∃ a p w, dv = Value.var a ∧ h1 = store h a p w := by
  unfold loopBody at hb
  split at hb
  · simp at hb
  · split at hb
    · simp at hb
    · rename_i dstField hfb
      split at hb
      · split at hb
        · simp at hb
        · cases dstField with
          | zero => simp [Set] at hb
          | field a p t ro =>
            obtain ⟨w, hw⟩ := Set_ok hb
            exact Or.inr ⟨a, p, w, FieldByName_field hfb, hw⟩
      · left
        simpa using hb.symm

theorem forLoop_frame (dv sv : Value) (r : Nat) :
    ∀ (i : Nat) (h : Heap),
      (∀ b, dv ≠ Value.var b → (forLoop dv sv r i h).heap b = h b) ∧
      (∀ b, ((forLoop dv sv r i h).heap b).layout = (h b).layout) := by
  induction r with
  | zero => intro i h; simp [forLoop]
  | succ r ih =>
    intro i h
    unfold forLoop
    cases hb : loopBody dv sv h i with
    | error p => simp
    | ok h1 =>
      simp only
      obtain ⟨ih1, ih2⟩ := ih (i + 1) h1
      rcases loopBody_ok hb with rfl | ⟨a, p, w, rfl, rfl⟩
      · exact ⟨ih1, ih2⟩
      · refine ⟨fun b hne => ?_, fun b => ?_⟩
        · rw [ih1 b hne]
          exact store_other h a b p w (fun e => hne (by rw [e]))
        · rw [ih2 b, store_layout]

theorem MapStructs_frame (h : Heap) (dst src : Arg) :
    (∀ b, dst ≠ Arg.ptr (some b) → (MapStructs h dst src).heap b = h b) ∧
    (∀ b, ((MapStructs h dst src).heap b).layout = (h b).layout) := by
  unfold MapStructs
  cases hs : valueOfElem src with
  | error p => simp
  | ok sv =>
    cases hd : valueOfElem dst with
    | error p => simp
    | ok dv =>
      cases hn : NumField h sv with
      | error p => simp [hn]
      | ok n =>
        simp only [hn]
        obtain ⟨f1, f2⟩ := forLoop_frame dv sv n 0 h
        refine ⟨fun b hne => f1 b ?_, f2⟩
        rintro rfl
        rcases dst with _ | (_ | da) | o <;> simp [valueOfElem] at hd
        subst hd
        exact hne rfl

/-- C10: a call, whether it panics or not, leaves the source record as it was
when source and destination are held in distinct storage; it leaves every
object other than the destination as it was; and in the destination only
field values change, not names or types. -/
theorem source_untouched (h : Heap) (da sa : Addr) (hne : da ≠ sa) :
    (MapStructs h (Arg.ptr (some da)) (Arg.ptr (some sa))).heap sa = h sa ∧
    (∀ b, b ≠ da → (MapStructs h (Arg.ptr (some da)) (Arg.ptr (some sa))).heap b = h b) ∧
    ((MapStructs h (Arg.ptr (some da)) (Arg.ptr (some sa))).heap da).layout = (h da).layout := by
  obtain ⟨f1, f2⟩ := MapStructs_frame h (Arg.ptr (some da)) (Arg.ptr (some sa))
  have key : ∀ b, b ≠ da →
      (MapStructs h (Arg.ptr (some da)) (Arg.ptr (some sa))).heap b = h b := by
    intro b hb
    apply f1
    intro e
    simp only [Arg.ptr.injEq, Option.some.injEq] at e
    exact hb e.symm
  exact ⟨key sa (fun e => hne e.symm), key, f2 da⟩

/-- Witness for `source_untouched`: the call of `main`. -/
theorem source_untouched_witness :
    (MapStructs mainHeap (Arg.ptr (some 0)) (Arg.ptr (some 1))).heap 1 = mainHeap 1 ∧
    (∀ b, b ≠ 0 → (MapStructs mainHeap (Arg.ptr (some 0)) (Arg.ptr (some 1))).heap b = mainHeap b) ∧
    ((MapStructs mainHeap (Arg.ptr (some 0)) (Arg.ptr (some 1))).heap 0).layout =
      (mainHeap 0).layout :=
  source_untouched mainHeap 0 1 (by decide)

/-! ## Looking declared fields up by name -/

theorem isExported_blank : isExported "_" = false := by decide

theorem fieldIndex_some {n : String} {fs : List Field} {j : Nat}
    (hj : fieldIndex n fs = some j) : ∃ f, fs[j]? = some f ∧ f.name = n := by
  induction fs generalizing j with
  | nil => simp [fieldIndex] at hj
  | cons f0 rest ih =>
    simp only [fieldIndex] at hj
    by_cases h0 : f0.name = n
    · simp only [h0, if_true, Option.some.injEq] at hj
      subst hj
      exact ⟨f0, by simp, h0⟩
    · simp only [h0, if_false, Option.map_eq_some'] at hj
      obtain ⟨k, hk, rfl⟩ := hj
      obtain ⟨f, hf, hn⟩ := ih hk
      exact ⟨f, by simpa using hf, hn⟩

theorem fieldIndex_names {n : String} {fs fs1 : List Field}
    (hn : fs1.map Field.name = fs.map Field.name) : fieldIndex n fs1 = fieldIndex n fs := by
  induction fs generalizing fs1 with
  | nil =>
    cases fs1 with
    | nil => rfl
    | cons a l => simp at hn
  | cons f0 rest ih =>
    cases fs1 with
    | nil => simp at hn
    | cons a l =>
      simp only [List.map_cons, List.cons.injEq] at hn
      simp only [fieldIndex, hn.1, ih hn.2]

theorem fieldIndex_unique {fs : List Field} {j : Nat} {f : Field}
    (hd : DistinctNames fs) (hf : fs[j]? = some f) (he : isExported f.name = true) :
    fieldIndex f.name fs = some j := by
  induction fs generalizing j with
  | nil => simp at hf
  | cons f0 rest ih =>
    unfold DistinctNames at hd
    simp only [List.map_cons, List.pairwise_cons, List.mem_map, forall_exists_index,
      and_imp, forall_apply_eq_imp_iff₂] at hd
    cases j with
    | zero =>
      simp only [List.getElem?_cons_zero, Option.some.injEq] at hf
      subst hf
      simp [fieldIndex]
    | succ k =>
      simp only [List.getElem?_cons_succ] at hf
      have hmem : f ∈ rest := List.getElem?_mem hf
      have h0 : f0.name ≠ f.name := by
        intro e
        have hb := hd.1 f hmem e
        rw [← e, hb, isExported_blank] at he
        exact Bool.false_ne_true he
      simp only [fieldIndex, h0, if_false]
      rw [ih hd.2 hf]
      rfl

/-! ## The declared part of the destination does not change -/

theorem decl_modify (k : Field → Field) (hk : ∀ f, (k f).decl = f.decl)
    (fs : List Field) (i : Nat) : (fs.modify k i).map Field.decl = fs.map Field.decl := by
  induction fs generalizing i with
  | nil => simp
  | cons f fs ih =>
    cases i with
    | zero => simp [hk]
    | succ i => simp [ih]

theorem decl_store (p : List Nat) (w : Val) (fs : List Field) :
    (storeFields p w fs).map Field.decl = fs.map Field.decl := by
  cases p with
  | nil => rfl
  | cons i p =>
    show (fs.modify (writeField p w) i).map Field.decl = fs.map Field.decl
    exact decl_modify (writeField p w) (fun _ => rfl) fs i

theorem decl_apply (s : Step) (fd : List Field) : (s.apply fd).map Field.decl = fd.map Field.decl := by
  cases s with
  | skip => rfl
  | fail p => rfl
  | write p w => exact decl_store p w fd

theorem names_of_decl {fd fd1 : List Field} (hs : fd1.map Field.decl = fd.map Field.decl) :
    fd1.map Field.name = fd.map Field.name := by
  have := congrArg (List.map (fun d : String × GoType × Bool => d.1)) hs
  simpa [List.map_map, Function.comp_def, Field.decl] using this

theorem typs_of_decl {fd fd1 : List Field} (hs : fd1.map Field.decl = fd.map Field.decl) :
    fd1.map Field.typ = fd.map Field.typ := by
  have := congrArg (List.map (fun d : String × GoType × Bool => d.2.1)) hs
  simpa [List.map_map, Function.comp_def, Field.decl] using this

theorem promoted_decl (n : String) {fd fd1 : List Field}
    (hs : fd1.map Field.decl = fd.map Field.decl) (i : Nat) :
    promoted n fd1 i = promoted n fd i := by
  induction fd generalizing fd1 i with
  | nil =>
    cases fd1 with
    | nil => rfl
    | cons a l => simp at hs
  | cons f0 rest ih =>
    cases fd1 with
    | nil => simp at hs
    | cons a l =>
      simp only [List.map_cons, List.cons.injEq, Field.decl, Prod.mk.injEq] at hs
      simp only [promoted, hs.1.2.1, hs.1.2.2, ih hs.2]

theorem getElem_typ_of_decl {fd fd1 : List Field} (hs : fd1.map Field.decl = fd.map Field.decl)
    (j : Nat) : (fd1[j]?).map Field.typ = (fd[j]?).map Field.typ := by
  have := congrArg (fun l : List GoType => l[j]?) (typs_of_decl hs)
  simpa using this

theorem structFieldByName_decl (n : String) {fd fd1 : List Field}
    (hs : fd1.map Field.decl = fd.map Field.decl) :
    structFieldByName n fd1 = structFieldByName n fd := by
  unfold structFieldByName
  rw [fieldIndex_names (names_of_decl hs), promoted_decl n hs 0]
  cases hj : fieldIndex n fd with
  | none => rfl
  | some j =>
    have ht := getElem_typ_of_decl hs j
    cases h1 : fd1[j]? with
    | none =>
      cases h0 : fd[j]? with
      | none => simp [h1, h0]
      | some f => rw [h1, h0] at ht; simp at ht
    | some f1 =>
      cases h0 : fd[j]? with
      | none => rw [h1, h0] at ht; simp at ht
      | some f =>
        rw [h1, h0] at ht
        simp only [Option.map_some', Option.some.injEq] at ht
        simp [h1, h0, ht]

theorem plan_decl {fd fd1 : List Field} (hs : fd1.map Field.decl = fd.map Field.decl)
    (g : Field) : plan fd1 g = plan fd g := by
  unfold plan
  rw [structFieldByName_decl g.name hs]

/-! ## One iteration, from the memory to the destination fields -/

theorem store_same (h : Heap) (a : Addr) (fd : List Field) (p : List Nat) (w : Val)
    (hd : h a = Obj.struct fd) : store h a p w a = Obj.struct (storeFields p w fd) := by
  simp [store, hd]

theorem loopBody_spec {h : Heap} {da sa : Addr} {fd fs : List Field} {i : Nat} {g : Field}
    (hs : h sa = Obj.struct fs) (hd : h da = Obj.struct fd) (hi : fs[i]? = some g) :
    match copyField fd g with
    | Except.error p => loopBody (Value.var da) (Value.var sa) h i = Except.error p
    | Except.ok fd1 =>
      ∃ h1, loopBody (Value.var da) (Value.var sa) h i = Except.ok h1 ∧
        h1 da = Obj.struct fd1 ∧ ∀ b, b ≠ da → h1 b = h b := by
  have hname : fieldName h (Value.var sa) i = Except.ok g.name := by
    simp [fieldName, hs, hi]
  have hval : fieldValue h (Value.var sa) i =
      Except.ok (FieldValue.field sa [i] g.typ (!isExported g.name)) := by
    simp [fieldValue, hs, hi]
  have hload : load h sa [i] = g.val := by
    simp [load, hs, Obj.fields, hi, Val.read]
  unfold copyField plan loopBody
  rw [hname]
  simp only [FieldByName, hd]
  cases hj : structFieldByName g.name fd with
  | none => simp [IsValid, hd]
  | some pt =>
    obtain ⟨p, t⟩ := pt
    simp only [IsValid, CanSet, hval, Bool.true_and, Bool.not_not]
    by_cases hg : isExported g.name = true
    · simp only [hg, if_true, Set, Bool.not_true, hload]
      cases ha : assignTo t g.typ g.val with
      | none => simp
      | some w =>
        simp only [Bool.false_eq_true, if_false]
        exact ⟨store h da p w, rfl, store_same h da fd p w hd,
          fun b hb => store_other h da b p w hb⟩
    · simp [hg, hd]

theorem modify_self {fs : List Field} {i : Nat} {g : Field} (hi : fs[i]? = some g) :
    fs.modify (writeField [] g.val) i = fs := by
  induction fs generalizing i with
  | nil => simp
  | cons f fs ih =>
    cases i with
    | zero =>
      simp only [List.getElem?_cons_zero, Option.some.injEq] at hi
      subst hi
      simp [writeField, setVal, Val.write]
    | succ i =>
      simp only [List.getElem?_cons_succ] at hi
      simp [ih hi]

theorem assignTo_same (t : GoType) (v : Val) : assignTo t t v = some v := by
  simp [assignTo]

theorem assignTo_some {t u : GoType} {v w : Val} (ha : assignTo t u v = some w) : w = v :=
  ((assignTo_iff t u v w).mp ha).1

theorem structFieldByName_declared {n : String} {fd : List Field} {j : Nat} {f : Field}
    (hj : fieldIndex n fd = some j) (hf : fd[j]? = some f) :
    structFieldByName n fd = some ([j], f.typ) := by
  unfold structFieldByName
  simp [hj, hf]

/-- Copying a field of a legal record onto the record itself changes
nothing. -/
theorem copyField_self {fs : List Field} {i : Nat} {g : Field}
    (hd : DistinctNames fs) (hi : fs[i]? = some g) : copyField fs g = Except.ok fs := by
  unfold copyField plan
  by_cases he : isExported g.name = true
  · rw [structFieldByName_declared (fieldIndex_unique hd hi he) hi]
    simp only [he, if_true, assignTo_same]
    show Except.ok (fs.modify (writeField [] g.val) i) = Except.ok fs
    rw [modify_self hi]
  · cases structFieldByName g.name fs with
    | none => rfl
    | some pt => simp [he]

/-! ## The call on two records, seen from the destination fields -/

theorem forLoop_spec {da sa : Addr} {fs : List Field} (hwf : sa = da → DistinctNames fs)
    (r : Nat) :
    ∀ (i : Nat) (h : Heap) (fd : List Field), h sa = Obj.struct fs → h da = Obj.struct fd →
      i + r = fs.length →
      (forLoop (Value.var da) (Value.var sa) r i h).err = (copyFields fd (fs.drop i)).2 ∧
      (forLoop (Value.var da) (Value.var sa) r i h).heap da =
        Obj.struct (copyFields fd (fs.drop i)).1 ∧
      ∀ b, b ≠ da → (forLoop (Value.var da) (Value.var sa) r i h).heap b = h b := by
  induction r with
  | zero =>
    intro i h fd hs hd hlen
    have hi : fs.length ≤ i := by omega
    simp [forLoop, List.drop_eq_nil_of_le hi, copyFields, hd]
  | succ r ih =>
    intro i h fd hs hd hlen
    have hlt : i < fs.length := by omega
    have hi : fs[i]? = some fs[i] := List.getElem?_eq_getElem hlt
    have hb := loopBody_spec hs hd hi
    rw [List.drop_eq_getElem_cons hlt]
    unfold forLoop copyFields
    cases hc : copyField fd fs[i] with
    | error p =>
      rw [hc] at hb
      simp only at hb
      simp [hb, hd]
    | ok fd1 =>
      rw [hc] at hb
      obtain ⟨h1, hb1, hda, hoth⟩ := hb
      simp only [hb1]
      have hs1 : h1 sa = Obj.struct fs := by
        by_cases e : sa = da
        · subst e
          have hfd : fd = fs := by
            rw [hs] at hd
            exact (Obj.struct.inj hd).symm
          subst hfd
          rw [copyField_self (hwf rfl) hi] at hc
          rw [hda, ← Except.ok.inj hc]
        · rw [hoth sa e, hs]
      obtain ⟨i1, i2, i3⟩ := ih (i + 1) h1 fd1 hs1 hda (by omega)
      exact ⟨i1, i2, fun b hb => (i3 b hb).trans (hoth b hb)⟩

theorem MapStructs_spec {h : Heap} {da sa : Addr} {fd fs : List Field}
    (hd : h da = Obj.struct fd) (hs : h sa = Obj.struct fs)
    (hwf : sa = da → DistinctNames fs) :
    (MapStructs h (Arg.ptr (some da)) (Arg.ptr (some sa))).err = (copyFields fd fs).2 ∧
    (MapStructs h (Arg.ptr (some da)) (Arg.ptr (some sa))).heap da =
      Obj.struct (copyFields fd fs).1 ∧
    ∀ b, b ≠ da → (MapStructs h (Arg.ptr (some da)) (Arg.ptr (some sa))).heap b = h b := by
  have key := forLoop_spec hwf fs.length 0 h fd hs hd (by omega)
  simpa [MapStructs, valueOfElem, NumField, hs] using key

/-! ## When only declared fields are found -/

theorem fieldIndex_none {n : String} {fs : List Field}
    (hj : fieldIndex n fs = none) : ∀ f ∈ fs, f.name ≠ n := by
  induction fs with
  | nil => simp
  | cons f0 rest ih =>
    simp only [fieldIndex] at hj
    by_cases h0 : f0.name = n
    · simp [h0] at hj
    · simp only [h0, if_false, Option.map_eq_none'] at hj
      intro f hf
      rcases List.mem_cons.mp hf with rfl | hf
      · exact h0
      · exact ih hj f hf

theorem writeField_nil (w : Val) : writeField [] w = setVal w := by
  funext f
  simp [writeField, Val.write]

/-- An iteration whose source field name is not found among the promoted
fields of the destination is the iteration on declared fields. -/
theorem copyField_flat {fd : List Field} {g : Field}
    (hnp : fieldIndex g.name fd = none → structFieldByName g.name fd = none) :
    copyField fd g = flatField fd g := by
  unfold copyField plan flatField
  cases hj : fieldIndex g.name fd with
  | none => simp [hnp hj]
  | some j =>
    obtain ⟨f, hf, hn⟩ := fieldIndex_some hj
    rw [structFieldByName_declared hj hf]
    simp only [hf, hn]
    by_cases he : isExported g.name = true
    · simp only [he, if_true]
      cases ha : assignTo f.typ g.typ g.val with
      | none => rfl
      | some w =>
        show Except.ok (fd.modify (writeField [] w) j) = Except.ok (fd.modify (setVal w) j)
        rw [writeField_nil]
    · simp [he]

theorem declaredOnly_decl {fd fd1 fs : List Field} (hs : fd1.map Field.decl = fd.map Field.decl)
    (hd : DeclaredOnly fd fs) : DeclaredOnly fd1 fs := by
  intro g hg hnone
  rw [fieldIndex_names (names_of_decl hs)] at hnone
  rw [structFieldByName_decl g.name hs]
  exact hd g hg hnone

theorem copyField_decl {fd fd1 : List Field} {g : Field} (hc : copyField fd g = Except.ok fd1) :
    fd1.map Field.decl = fd.map Field.decl := by
  unfold copyField at hc
  cases hp : plan fd g with
  | skip =>
    simp only [hp, Except.ok.injEq] at hc
    rw [← hc]
  | fail p => simp [hp] at hc
  | write p w =>
    simp only [hp, Except.ok.injEq] at hc
    rw [← hc]
    exact decl_store p w fd

theorem copyFields_flat (fs : List Field) :
    ∀ fd : List Field, DeclaredOnly fd fs → copyFields fd fs = flatFields fd fs := by
  induction fs with
  | nil => intro fd _; rfl
  | cons g gs ih =>
    intro fd hd
    have hg := copyField_flat (hd g (List.mem_cons_self _ _))
    unfold copyFields flatFields
    rw [← hg]
    cases hc : copyField fd g with
    | error p => rfl
    | ok fd1 =>
      simp only
      apply ih fd1
      apply declaredOnly_decl (copyField_decl hc)
      intro g1 hg1
      exact hd g1 (List.mem_cons_of_mem _ hg1)

theorem declaredOnly_of_found {fd fs : List Field}
    (hsub : ∀ g ∈ fs, ∃ f ∈ fd, f.name = g.name) : DeclaredOnly fd fs := by
  intro g hg hnone
  obtain ⟨f, hf, hn⟩ := hsub g hg
  exact absurd hn (fieldIndex_none hnone f hf)

/-! ## The iterations on declared fields, field by field -/

theorem map_name_modify (w : Val) (fs : List Field) (i : Nat) :
    (fs.modify (setVal w) i).map Field.name = fs.map Field.name := by
  induction fs generalizing i with
  | nil => simp
  | cons f fs ih =>
    cases i with
    | zero => simp [setVal]
    | succ i => simp [ih]

theorem map_typ_modify (w : Val) (fs : List Field) (i : Nat) :
    (fs.modify (setVal w) i).map Field.typ = fs.map Field.typ := by
  induction fs generalizing i with
  | nil => simp
  | cons f fs ih =>
    cases i with
    | zero => simp [setVal]
    | succ i => simp [ih]

theorem modify_setVal_self {fs : List Field} {i : Nat} {g : Field} (hi : fs[i]? = some g) :
    fs.modify (setVal g.val) i = fs := by
  induction fs generalizing i with
  | nil => simp
  | cons f fs ih =>
    cases i with
    | zero =>
      simp only [List.getElem?_cons_zero, Option.some.injEq] at hi
      subst hi
      simp [setVal]
    | succ i =>
      simp only [List.getElem?_cons_succ] at hi
      simp [ih hi]

/-- The three ways an iteration can end without a panic: nothing is written
because no field of the destination has the name, nothing is written because
the field found is unexported, or the value of the source field is stored in
the field found. -/
theorem flatField_ok {fd fd1 : List Field} {g : Field} (hc : flatField fd g = Except.ok fd1) :
    (fieldIndex g.name fd = none ∧ fd1 = fd) ∨
    (∃ j f, fieldIndex g.name fd = some j ∧ fd[j]? = some f ∧ isExported f.name = false ∧
      fd1 = fd) ∨
    (∃ j f, fieldIndex g.name fd = some j ∧ fd[j]? = some f ∧ isExported f.name = true ∧
      (assignTo f.typ g.typ g.val).isSome = true ∧ fd1 = fd.modify (setVal g.val) j) := by
  unfold flatField at hc
  cases hj : fieldIndex g.name fd with
  | none =>
    simp only [hj, Except.ok.injEq] at hc
    exact Or.inl ⟨rfl, hc.symm⟩
  | some j =>
    obtain ⟨f, hf, hn⟩ := fieldIndex_some hj
    simp only [hj, hf] at hc
    by_cases he : isExported f.name = true
    · have hg : isExported g.name = true := by rw [← hn]; exact he
      simp only [he, hg, if_true] at hc
      cases ha : assignTo f.typ g.typ g.val with
      | none => simp [ha] at hc
      | some w =>
        simp only [ha, Except.ok.injEq] at hc
        have hw := assignTo_some ha
        subst hw
        exact Or.inr (Or.inr ⟨j, f, rfl, hf, he, by simp [ha], hc.symm⟩)
    · simp only [he, Bool.false_eq_true, if_false, Except.ok.injEq] at hc
      exact Or.inr (Or.inl ⟨j, f, rfl, hf, by simpa using he, hc.symm⟩)

theorem flatField_names {fd fd1 : List Field} {g : Field} (hc : flatField fd g = Except.ok fd1) :
    fd1.map Field.name = fd.map Field.name ∧ fd1.map Field.typ = fd.map Field.typ := by
  rcases flatField_ok hc with ⟨_, rfl⟩ | ⟨j, f, _, _, _, rfl⟩ | ⟨j, f, _, _, _, _, rfl⟩
  · exact ⟨rfl, rfl⟩
  · exact ⟨rfl, rfl⟩
  · exact ⟨map_name_modify _ _ _, map_typ_modify _ _ _⟩

theorem flatFields_names (fs : List Field) :
    ∀ fd : List Field, (flatFields fd fs).1.map Field.name = fd.map Field.name ∧
      (flatFields fd fs).1.map Field.typ = fd.map Field.typ := by
  induction fs with
  | nil => intro fd; simp [flatFields]
  | cons g gs ih =>
    intro fd
    unfold flatFields
    cases hc : flatField fd g with
    | error p => simp
    | ok fd1 =>
      simp only
      obtain ⟨h1, h2⟩ := ih fd1
      obtain ⟨h3, h4⟩ := flatField_names hc
      exact ⟨h1.trans h3, h2.trans h4⟩

theorem distinct_of_names {fs fs1 : List Field} (hn : fs1.map Field.name = fs.map Field.name)
    (hd : DistinctNames fs) : DistinctNames fs1 := by
  unfold DistinctNames at *
  rw [hn]
  exact hd

theorem distinct_cons {g : Field} {gs : List Field} (hd : DistinctNames (g :: gs)) :
    (∀ g1 ∈ gs, g1.name = g.name → isExported g.name = false) ∧ DistinctNames gs := by
  unfold DistinctNames at *
  simp only [List.map_cons, List.pairwise_cons, List.mem_map, forall_exists_index,
    and_imp, forall_apply_eq_imp_iff₂] at hd
  refine ⟨fun g1 hg1 e => ?_, hd.2⟩
  rw [hd.1 g1 hg1 e.symm]
  exact isExported_blank

/-- An iteration keeps every field of the destination in place, with its name
and type; at most the value differs. -/
theorem flatField_getElem {fd fd1 : List Field} {g : Field} {j : Nat} {f : Field}
    (hc : flatField fd g = Except.ok fd1) (hf : fd[j]? = some f) :
    ∃ w, fd1[j]? = some (setVal w f) := by
  rcases flatField_ok hc with ⟨_, rfl⟩ | ⟨j0, f0, _, _, _, rfl⟩ | ⟨j0, f0, _, _, _, _, rfl⟩
  · exact ⟨f.val, hf⟩
  · exact ⟨f.val, hf⟩
  · by_cases e : j0 = j
    · subst e
      exact ⟨g.val, by simp [hf]⟩
    · exact ⟨f.val, by rw [List.getElem?_modify_ne _ _ e]; exact hf⟩

theorem flatFields_getElem (fs : List Field) :
    ∀ (fd : List Field) (j : Nat) (f : Field), fd[j]? = some f →
      ∃ w, (flatFields fd fs).1[j]? = some (setVal w f) := by
  induction fs with
  | nil => intro fd j f hf; exact ⟨f.val, hf⟩
  | cons g gs ih =>
    intro fd j f hf
    unfold flatFields
    cases hc : flatField fd g with
    | error p => exact ⟨f.val, hf⟩
    | ok fd1 =>
      obtain ⟨w, hw⟩ := flatField_getElem hc hf
      obtain ⟨v, hv⟩ := ih fd1 j (setVal w f) hw
      exact ⟨v, hv⟩

/-- A destination field that no source field addresses by name, or that is
unexported, keeps its value, whether the call panics or not. -/
theorem flatFields_untouched (fs : List Field) :
    ∀ (fd : List Field) (j : Nat) (f : Field), fd[j]? = some f →
      (∀ g ∈ fs, g.name = f.name → isExported f.name = false) →
      (flatFields fd fs).1[j]? = some f := by
  induction fs with
  | nil => intro fd j f hf _; exact hf
  | cons g gs ih =>
    intro fd j f hf hno
    unfold flatFields
    cases hc : flatField fd g with
    | error p => exact hf
    | ok fd1 =>
      simp only
      apply ih fd1 j f _ (fun g1 hg1 => hno g1 (List.mem_cons_of_mem _ hg1))
      rcases flatField_ok hc with ⟨_, rfl⟩ | ⟨j0, f0, _, _, _, rfl⟩ | ⟨j0, f0, hj0, hf0, he0, _, rfl⟩
      · exact hf
      · exact hf
      · by_cases e : j0 = j
        · subst e
          rw [hf] at hf0
          obtain ⟨f1, hf1, hn1⟩ := fieldIndex_some hj0
          rw [hf] at hf1
          have e1 : f1 = f := (Option.some.inj hf1).symm
          have e0 : f0 = f := (Option.some.inj hf0).symm
          subst e1
          subst e0
          rw [hno g (List.mem_cons_self _ _) hn1.symm] at he0
          exact absurd he0 Bool.false_ne_true
        · rw [List.getElem?_modify_ne _ _ e]
          exact hf

/-- When the iterations end without a panic, a source field whose name leads
to an exported destination field has a type that fits, and its value is what
the destination field holds at the end. -/
theorem flatFields_written (fs : List Field) :
    ∀ (fd : List Field) (g : Field) (j : Nat) (f : Field), DistinctNames fs →
      (flatFields fd fs).2 = none → g ∈ fs → fieldIndex g.name fd = some j →
      fd[j]? = some f → isExported f.name = true →
      (assignTo f.typ g.typ g.val).isSome = true ∧
      (flatFields fd fs).1[j]? = some (setVal g.val f) := by
  induction fs with
  | nil => intro fd g j f _ _ hg; simp at hg
  | cons g0 gs ih =>
    intro fd g j f hdis hret hg hj hf he
    obtain ⟨hhead, htail⟩ := distinct_cons hdis
    unfold flatFields at hret ⊢
    cases hc : flatField fd g0 with
    | error p => simp [hc] at hret
    | ok fd1 =>
      simp only [hc] at hret ⊢
      obtain ⟨fname, _⟩ := fieldIndex_some hj
      rcases List.mem_cons.mp hg with rfl | hmem
      · rcases flatField_ok hc with ⟨hn, _⟩ | ⟨j0, f0, hj0, hf0, he0, _⟩ |
          ⟨j0, f0, hj0, hf0, _, hass, rfl⟩
        · rw [hn] at hj
          simp at hj
        · rw [hj] at hj0
          have e := Option.some.inj hj0
          subst e
          rw [hf] at hf0
          have e0 := Option.some.inj hf0
          subst e0
          rw [he] at he0
          exact absurd he0 (by simp)
        · rw [hj] at hj0
          have e := Option.some.inj hj0
          subst e
          rw [hf] at hf0
          have e0 := Option.some.inj hf0
          subst e0
          refine ⟨hass, ?_⟩
          apply flatFields_untouched gs _ j (setVal g.val f) (by simp [hf])
          intro g1 hg1 hn1
          obtain ⟨f1, hf1, hname⟩ := fieldIndex_some hj
          rw [hf] at hf1
          have e1 := Option.some.inj hf1
          subst e1
          have : isExported g.name = false := hhead g1 hg1 (hn1.trans hname)
          rw [← hname, he] at this
          exact absurd this (by simp)
      · obtain ⟨w, hw⟩ := flatField_getElem hc hf
        have hj1 : fieldIndex g.name fd1 = some j := by
          rw [fieldIndex_names (flatField_names hc).1]
          exact hj
        have key := ih fd1 g j (setVal w f) htail hret hmem hj1 hw he
        simpa [setVal] using key

/-- An iteration panics only when the name of the source field leads to an
exported destination field whose type does not accept the value. -/
theorem flatField_error {fd : List Field} {g : Field} {p : Panic}
    (hc : flatField fd g = Except.error p) :
    ∃ j f, fieldIndex g.name fd = some j ∧ fd[j]? = some f ∧ isExported f.name = true ∧
      assignTo f.typ g.typ g.val = none ∧ p = Panic.notAssignable g.typ f.typ := by
  unfold flatField at hc
  cases hj : fieldIndex g.name fd with
  | none => simp [hj] at hc
  | some j =>
    obtain ⟨f, hf, hn⟩ := fieldIndex_some hj
    simp only [hj, hf] at hc
    by_cases he : isExported f.name = true
    · have hg : isExported g.name = true := by rw [← hn]; exact he
      simp only [he, hg, if_true] at hc
      cases ha : assignTo f.typ g.typ g.val with
      | none =>
        simp only [ha, Except.error.injEq] at hc
        exact ⟨j, f, rfl, hf, he, ha, hc.symm⟩
      | some w => simp [ha] at hc
    · simp [he] at hc

theorem flatFields_no_panic (fs : List Field) :
    ∀ fd : List Field, DistinctNames fd →
      (∀ g ∈ fs, ∃ f ∈ fd, f.name = g.name ∧ f.typ = g.typ ∧ isExported f.name = true) →
      (flatFields fd fs).2 = none := by
  induction fs with
  | nil => intro fd _ _; rfl
  | cons g gs ih =>
    intro fd wd hsub
    unfold flatFields
    cases hc : flatField fd g with
    | error p =>
      exfalso
      obtain ⟨j, f0, hj, hf0, _, hnone, _⟩ := flatField_error hc
      obtain ⟨f, hfmem, hn, ht, he⟩ := hsub g (List.mem_cons_self _ _)
      obtain ⟨k, hk⟩ := List.mem_iff_getElem?.mp hfmem
      have hk1 := fieldIndex_unique wd hk he
      rw [hn, hj] at hk1
      have e := Option.some.inj hk1
      subst e
      rw [hk] at hf0
      have e0 := Option.some.inj hf0
      subst e0
      rw [ht, assignTo_same] at hnone
      simp at hnone
    | ok fd1 =>
      simp only
      apply ih fd1 (distinct_of_names (flatField_names hc).1 wd)
      intro g1 hg1
      obtain ⟨f, hfmem, hn, ht, he⟩ := hsub g1 (List.mem_cons_of_mem _ hg1)
      obtain ⟨k, hk⟩ := List.mem_iff_getElem?.mp hfmem
      obtain ⟨w, hw⟩ := flatField_getElem hc hk
      exact ⟨setVal w f, List.getElem?_mem hw, hn, ht, he⟩

theorem flatFields_disjoint (fs : List Field) (fd : List Field)
    (hdis : ∀ g ∈ fs, ∀ f ∈ fd, f.name ≠ g.name) : flatFields fd fs = (fd, none) := by
  induction fs with
  | nil => rfl
  | cons g gs ih =>
    have hnone : fieldIndex g.name fd = none := by
      cases hj : fieldIndex g.name fd with
      | none => rfl
      | some j =>
        obtain ⟨f, hf, hn⟩ := fieldIndex_some hj
        exact absurd hn (hdis g (List.mem_cons_self _ _) f (List.getElem?_mem hf))
    have hc : flatField fd g = Except.ok fd := by
      unfold flatField
      rw [hnone]
    unfold flatFields
    rw [hc]
    exact ih (fun g1 hg1 => hdis g1 (List.mem_cons_of_mem _ hg1))

/-- A destination field keeps its value, whether the call panics or not, when
every source field of its name either finds it unexported or has a type that
does not fit. -/
theorem flatFields_kept (fs : List Field) :
    ∀ (fd : List Field) (j : Nat) (f : Field), fd[j]? = some f →
      (∀ g ∈ fs, g.name = f.name → isExported f.name = true →
        assignTo f.typ g.typ g.val = none) →
      (flatFields fd fs).1[j]? = some f := by
  induction fs with
  | nil => intro fd j f hf _; exact hf
  | cons g gs ih =>
    intro fd j f hf hno
    unfold flatFields
    cases hc : flatField fd g with
    | error p => exact hf
    | ok fd1 =>
      simp only
      apply ih fd1 j f _ (fun g1 hg1 => hno g1 (List.mem_cons_of_mem _ hg1))
      rcases flatField_ok hc with ⟨_, rfl⟩ | ⟨j0, f0, _, _, _, rfl⟩ | ⟨j0, f0, hj0, hf0, he0, ha0, rfl⟩
      · exact hf
      · exact hf
      · by_cases e : j0 = j
        · subst e
          obtain ⟨f1, hf1, hn1⟩ := fieldIndex_some hj0
          rw [hf] at hf1 hf0
          have e1 := Option.some.inj hf1
          have e0 := Option.some.inj hf0
          subst e1
          subst e0
          rw [hno g (List.mem_cons_self _ _) hn1.symm he0] at ha0
          simp at ha0
        · rw [List.getElem?_modify_ne _ _ e]
          exact hf

theorem member_unique {fs : List Field} {g g1 : Field} (hd : DistinctNames fs)
    (hg : g ∈ fs) (hg1 : g1 ∈ fs) (hn : g1.name = g.name) (he : isExported g.name = true) :
    g1 = g := by
  obtain ⟨i, hi⟩ := List.mem_iff_getElem?.mp hg
  obtain ⟨k, hk⟩ := List.mem_iff_getElem?.mp hg1
  have e1 := fieldIndex_unique hd hi he
  have e2 := fieldIndex_unique hd hk (by rw [hn]; exact he)
  rw [hn, e1] at e2
  have e := Option.some.inj e2
  subst e
  rw [hi] at hk
  exact (Option.some.inj hk).symm

theorem flatFields_panic_source (fs : List Field) :
    ∀ (fd : List Field) (p : Panic), (flatFields fd fs).2 = some p →
      ∃ g ∈ fs, ∃ (j : Nat) (f : Field), fieldIndex g.name fd = some j ∧ fd[j]? = some f ∧
        isExported f.name = true ∧ assignTo f.typ g.typ g.val = none := by
  induction fs with
  | nil => intro fd p hp; simp [flatFields] at hp
  | cons g gs ih =>
    intro fd p hp
    unfold flatFields at hp
    cases hc : flatField fd g with
    | error q =>
      obtain ⟨j, f, hj, hf, he, ha, _⟩ := flatField_error hc
      exact ⟨g, List.mem_cons_self _ _, j, f, hj, hf, he, ha⟩
    | ok fd1 =>
      simp only [hc] at hp
      obtain ⟨g1, hg1, j, f1, hj, hf1, he, ha⟩ := ih fd1 p hp
      obtain ⟨hnames, _⟩ := flatField_names hc
      have hlen : fd1.length = fd.length := by
        have := congrArg List.length hnames
        simpa using this
      have hlt : j < fd.length := by
        rw [← hlen]
        exact (List.getElem?_eq_some.mp hf1).1
      have hf : fd[j]? = some fd[j] := List.getElem?_eq_getElem hlt
      obtain ⟨w, hw⟩ := flatField_getElem hc hf
      rw [hf1] at hw
      have e := Option.some.inj hw
      subst e
      refine ⟨g1, List.mem_cons_of_mem _ hg1, j, fd[j], ?_, hf, he, ha⟩
      rw [← fieldIndex_names hnames]
      exact hj

theorem distinct_perm {fs fs1 : List Field} (hp : fs1.Perm fs) (hd : DistinctNames fs) :
    DistinctNames fs1 := by
  unfold DistinctNames at *
  refine ((hp.map Field.name).pairwise_iff ?_).mpr hd
  intro a b hab e
  rw [e]
  exact hab e.symm

/-- Seen from the destination fields: when the iterations for the source
fields end without a panic, so do the iterations for any reordering of them,
and with the same result. -/
theorem flatFields_perm {fd fs fs1 : List Field} (hp : fs1.Perm fs)
    (wd : DistinctNames fd) (ws : DistinctNames fs) (hret : (flatFields fd fs).2 = none) :
    flatFields fd fs1 = flatFields fd fs := by
  have ws1 := distinct_perm hp ws
  have hret1 : (flatFields fd fs1).2 = none := by
    cases hq : (flatFields fd fs1).2 with
    | none => rfl
    | some p =>
      obtain ⟨g, hg, j, f, hj, hf, he, ha⟩ := flatFields_panic_source fs1 fd p hq
      have key := (flatFields_written fs fd g j f ws hret (hp.mem_iff.mp hg) hj hf he).1
      rw [ha] at key
      simp at key
  have hfst : (flatFields fd fs1).1 = (flatFields fd fs).1 := by
    apply List.ext_getElem?
    intro j
    cases hf : fd[j]? with
    | none =>
      have hlen : ∀ gs : List Field, (flatFields fd gs).1.length = fd.length := by
        intro gs
        have := congrArg List.length (flatFields_names gs fd).1
        simpa using this
      have hge : fd.length ≤ j := by
        by_contra hlt
        rw [List.getElem?_eq_getElem (by omega)] at hf
        simp at hf
      rw [List.getElem?_eq_none (by rw [hlen]; exact hge),
        List.getElem?_eq_none (by rw [hlen]; exact hge)]
    | some f =>
      by_cases hex : ∃ g ∈ fs, g.name = f.name ∧ isExported f.name = true
      · obtain ⟨g, hg, hn, he⟩ := hex
        have hj : fieldIndex g.name fd = some j := by
          rw [hn]
          exact fieldIndex_unique wd hf he
        rw [(flatFields_written fs fd g j f ws hret hg hj hf he).2,
          (flatFields_written fs1 fd g j f ws1 hret1 (hp.mem_iff.mpr hg) hj hf he).2]
      · have hno : ∀ g ∈ fs, g.name = f.name → isExported f.name = false := by
          intro g hg hn
          by_contra he
          exact hex ⟨g, hg, hn, by simpa using he⟩
        rw [flatFields_untouched fs fd j f hf hno,
          flatFields_untouched fs1 fd j f hf (fun g hg => hno g (hp.mem_iff.mp hg))]
  exact Prod.ext hfst (hret1.trans hret.symm)

/-! ## The mapping invariant -/

/-- C1, as stated, fails: the destination `struct{ Inner; Price float64 }`
embeds `Inner`, which declares `ID`; the source `struct{ ID string }` has no
field called `Inner`, yet the call, which returns, changes the field `Inner`
of the destination, through the promoted field `ID`. -/
theorem promoted_field_counterexample :
    (MapStructs promotedHeap (Arg.ptr (some 0)) (Arg.ptr (some 1))).err = none ∧
    (∀ g ∈ (promotedHeap 1).fields, g.name ≠ "Inner") ∧
    (promotedHeap 0).fields[0]? =
      some ⟨"Inner", innerType, Val.struct (Vals.cons (Val.str "") Vals.nil), true⟩ ∧
    ((MapStructs promotedHeap (Arg.ptr (some 0)) (Arg.ptr (some 1))).heap 0).fields[0]? =
      some ⟨"Inner", innerType, Val.struct (Vals.cons (Val.str "Lock") Vals.nil), true⟩ ∧
    ((MapStructs promotedHeap (Arg.ptr (some 0)) (Arg.ptr (some 1))).heap 0).fields[0]? ≠
      (promotedHeap 0).fields[0]? := by
  decide

/-- C1, amended: on two records such that every source field name found in the
destination names a declared field of it, none a promoted one, when the call
returns every declared destination field keeps its name and type; it holds the
value of the source field of the same name when there is one, the destination
field is exported and its type accepts that value; in every other case it
holds the value it had before the call. -/
theorem copies_matching_fields (h : Heap) (da sa : Addr) (fd fs : List Field)
    (hd : h da = Obj.struct fd) (hs : h sa = Obj.struct fs)
    (wd : DistinctNames fd) (ws : DistinctNames fs) (hdecl : DeclaredOnly fd fs)
    (hret : (MapStructs h (Arg.ptr (some da)) (Arg.ptr (some sa))).err = none) :
    ∃ fd1, (MapStructs h (Arg.ptr (some da)) (Arg.ptr (some sa))).heap da = Obj.struct fd1 ∧
      fd1.length = fd.length ∧
      ∀ (j : Nat) (f : Field), fd[j]? = some f →
        ∃ f1, fd1[j]? = some f1 ∧ f1.name = f.name ∧ f1.typ = f.typ ∧
          (∀ g ∈ fs, g.name = f.name → isExported f.name = true →
            (assignTo f.typ g.typ g.val).isSome = true → f1.val = g.val) ∧
          ((¬ ∃ g ∈ fs, g.name = f.name ∧ isExported f.name = true ∧
            (assignTo f.typ g.typ g.val).isSome = true) → f1.val = f.val) := by
  obtain ⟨herr, hheap, _⟩ := MapStructs_spec hd hs (fun _ => ws)
  rw [copyFields_flat fs fd hdecl] at herr hheap
  rw [herr] at hret
  refine ⟨(flatFields fd fs).1, hheap, ?_, ?_⟩
  · have := congrArg List.length (flatFields_names fs fd).1
    simpa using this
  · intro j f hf
    obtain ⟨w, hw⟩ := flatFields_getElem fs fd j f hf
    refine ⟨setVal w f, hw, rfl, rfl, ?_, ?_⟩
    · intro g hg hn he _
      have hj : fieldIndex g.name fd = some j := by
        rw [hn]
        exact fieldIndex_unique wd hf he
      have key := (flatFields_written fs fd g j f ws hret hg hj hf he).2
      rw [hw] at key
      have := congrArg Field.val (Option.some.inj key)
      simpa [setVal] using this
    · intro hno
      have key : (flatFields fd fs).1[j]? = some f := by
        apply flatFields_untouched fs fd j f hf
        intro g hg hn
        by_contra he
        have he1 : isExported f.name = true := by simpa using he
        have hj : fieldIndex g.name fd = some j := by
          rw [hn]
          exact fieldIndex_unique wd hf he1
        exact hno ⟨g, hg, hn, he1, (flatFields_written fs fd g j f ws hret hg hj hf he1).1⟩
      rw [hw] at key
      have := congrArg Field.val (Option.some.inj key)
      simpa [setVal] using this

/-- Witness for `copies_matching_fields`: a destination with an exported ASCII
name, an exported name outside ASCII, an `interface{}` field, an unexported
field, an embedded struct and a field the source does not have.  The
hypotheses hold, and the call leaves `"Lock"`, 5 and 7 in the first three
fields and the other three as they were. -/
theorem copies_matching_fields_witness :
    (DistinctNames wideFields ∧ DistinctNames wideSource ∧ DeclaredOnly wideFields wideSource ∧
      (MapStructs wideHeap (Arg.ptr (some 0)) (Arg.ptr (some 1))).err = none ∧
      wideFields.map (fun f => isExported f.name) = [true, true, true, false, true, true] ∧
      (assignTo GoType.any GoType.int (Val.int 7)).isSome = true) ∧
    (∃ fd1, (MapStructs wideHeap (Arg.ptr (some 0)) (Arg.ptr (some 1))).heap 0 = Obj.struct fd1 ∧
      fd1.length = wideFields.length ∧
      ∀ (j : Nat) (f : Field), wideFields[j]? = some f →
        ∃ f1, fd1[j]? = some f1 ∧ f1.name = f.name ∧ f1.typ = f.typ ∧
          (∀ g ∈ wideSource, g.name = f.name → isExported f.name = true →
            (assignTo f.typ g.typ g.val).isSome = true → f1.val = g.val) ∧
          ((¬ ∃ g ∈ wideSource, g.name = f.name ∧ isExported f.name = true ∧
            (assignTo f.typ g.typ g.val).isSome = true) → f1.val = f.val)) ∧
    (MapStructs wideHeap (Arg.ptr (some 0)) (Arg.ptr (some 1))).heap 0 =
      Obj.struct [⟨"ID", GoType.string, Val.str "Lock", false⟩,
        ⟨"Ünits", GoType.int, Val.int 5, false⟩, ⟨"Note", GoType.any, Val.int 7, false⟩,
        ⟨"count", GoType.int, Val.int 0, false⟩,
        ⟨"Inner", GoType.struct "Inner" (Decls.cons "Code" false GoType.string Decls.nil),
          Val.struct (Vals.cons (Val.str "") Vals.nil), true⟩,
        ⟨"Price", GoType.float64, Val.float64 0, false⟩] :=
  ⟨by decide,
    copies_matching_fields wideHeap 0 1 wideFields wideSource rfl rfl
      (by decide) (by decide) (by decide) (by decide),
    by decide⟩

/-! ## Full copy and disjoint names -/

/-- C5: when every field of the source record exists in the destination
record as a declared field with the same name and type and is exported there,
the call returns without a panic, every field of the source is then found in
the destination with the value of the source, and the fields of the
destination whose name the source does not have are as before. -/
theorem full_copy (h : Heap) (da sa : Addr) (fd fs : List Field)
    (hd : h da = Obj.struct fd) (hs : h sa = Obj.struct fs)
    (wd : DistinctNames fd) (ws : DistinctNames fs)
    (hsub : ∀ g ∈ fs, ∃ f ∈ fd, f.name = g.name ∧ f.typ = g.typ ∧ isExported f.name = true) :
    (MapStructs h (Arg.ptr (some da)) (Arg.ptr (some sa))).err = none ∧
    ∃ fd1, (MapStructs h (Arg.ptr (some da)) (Arg.ptr (some sa))).heap da = Obj.struct fd1 ∧
      fd1.map Field.name = fd.map Field.name ∧ fd1.map Field.typ = fd.map Field.typ ∧
      (∀ g ∈ fs, ∃ f1 ∈ fd1, f1.name = g.name ∧ f1.typ = g.typ ∧ f1.val = g.val) ∧
      (∀ (j : Nat) (f : Field), fd[j]? = some f → (∀ g ∈ fs, g.name ≠ f.name) →
        fd1[j]? = some f) := by
  obtain ⟨herr, hheap, _⟩ := MapStructs_spec hd hs (fun _ => ws)
  have hdecl : DeclaredOnly fd fs :=
    declaredOnly_of_found (fun g hg => by
      obtain ⟨f, hf, hn, _⟩ := hsub g hg
      exact ⟨f, hf, hn⟩)
  rw [copyFields_flat fs fd hdecl] at herr hheap
  have hret := flatFields_no_panic fs fd wd hsub
  refine ⟨herr.trans hret, (flatFields fd fs).1, hheap, (flatFields_names fs fd).1,
    (flatFields_names fs fd).2, ?_, ?_⟩
  · intro g hg
    obtain ⟨f, hfmem, hn, ht, he⟩ := hsub g hg
    obtain ⟨k, hk⟩ := List.mem_iff_getElem?.mp hfmem
    have hj : fieldIndex g.name fd = some k := by
      rw [← hn]
      exact fieldIndex_unique wd hk he
    have key := (flatFields_written fs fd g k f ws hret hg hj hk he).2
    exact ⟨setVal g.val f, List.getElem?_mem key, hn, ht, rfl⟩
  · intro j f hf hno
    apply flatFields_untouched fs fd j f hf
    intro g hg hn
    exact absurd hn (hno g hg)

/-- Witness for `full_copy`: a zero valued destination
`struct{ ID string; Ünits int; CorrelationNumber int; Price float64 }` and a
source holding `"Lock"`, 5 and 123 in the first three.  The hypotheses hold, no
field of the source is in the destination before the call, and the call leaves
`"Lock"`, 5, 123 and the old price in it. -/
theorem full_copy_witness :
    (DistinctNames fullFields ∧ DistinctNames fullSource ∧
      (∀ g ∈ fullSource, ∃ f ∈ fullFields,
        f.name = g.name ∧ f.typ = g.typ ∧ isExported f.name = true) ∧
      ∀ g ∈ fullSource, g ∉ fullFields) ∧
    ((MapStructs fullHeap (Arg.ptr (some 0)) (Arg.ptr (some 1))).err = none ∧
      ∃ fd1, (MapStructs fullHeap (Arg.ptr (some 0)) (Arg.ptr (some 1))).heap 0 =
          Obj.struct fd1 ∧
        fd1.map Field.name = fullFields.map Field.name ∧
        fd1.map Field.typ = fullFields.map Field.typ ∧
        (∀ g ∈ fullSource, ∃ f1 ∈ fd1, f1.name = g.name ∧ f1.typ = g.typ ∧ f1.val = g.val) ∧
        (∀ (j : Nat) (f : Field), fullFields[j]? = some f →
          (∀ g ∈ fullSource, g.name ≠ f.name) → fd1[j]? = some f)) ∧
    (MapStructs fullHeap (Arg.ptr (some 0)) (Arg.ptr (some 1))).heap 0 =
      Obj.struct [⟨"ID", GoType.string, Val.str "Lock", false⟩,
        ⟨"Ünits", GoType.int, Val.int 5, false⟩,
        ⟨"CorrelationNumber", GoType.int, Val.int 123, false⟩,
        ⟨"Price", GoType.float64, Val.float64 0, false⟩] :=
  ⟨by decide,
    full_copy fullHeap 0 1 fullFields fullSource rfl rfl (by decide) (by decide) (by decide),
    by decide⟩

/-- C7, as stated, fails: the declared fields of the destination
`struct{ Inner; Price float64 }` are `Inner` and `Price`, the source declares
`ID` only, so they share no field name; yet the call writes the source value
into the field `ID` promoted from the embedded `Inner`. -/
theorem disjoint_names_counterexample :
    (∀ g ∈ (promotedHeap 1).fields, ∀ f ∈ (promotedHeap 0).fields, f.name ≠ g.name) ∧
    (MapStructs promotedHeap (Arg.ptr (some 0)) (Arg.ptr (some 1))).err = none ∧
    (MapStructs promotedHeap (Arg.ptr (some 0)) (Arg.ptr (some 1))).heap 0 ≠ promotedHeap 0 ∧
    (MapStructs promotedHeap (Arg.ptr (some 0)) (Arg.ptr (some 1))).heap 0 =
      Obj.struct [⟨"Inner", innerType, Val.struct (Vals.cons (Val.str "Lock") Vals.nil), true⟩,
        ⟨"Price", GoType.float64, Val.float64 0, false⟩] := by
  decide

/-- C7, amended: on two records that share no field name, where no field name
of the source is found among the fields promoted from the embedded structs of
the destination either, the call returns without a panic and the memory, the
destination included, is exactly what it was. -/
theorem disjoint_names (h : Heap) (da sa : Addr) (fd fs : List Field)
    (hd : h da = Obj.struct fd) (hs : h sa = Obj.struct fs)
    (hdis : ∀ g ∈ fs, ∀ f ∈ fd, f.name ≠ g.name) (hdecl : DeclaredOnly fd fs) :
    (MapStructs h (Arg.ptr (some da)) (Arg.ptr (some sa))).err = none ∧
    (MapStructs h (Arg.ptr (some da)) (Arg.ptr (some sa))).heap = h := by
  have hwf : sa = da → DistinctNames fs := by
    intro e
    subst e
    rw [hs] at hd
    have e1 := Obj.struct.inj hd
    subst e1
    cases fs with
    | nil => unfold DistinctNames; simp
    | cons g gs => exact absurd rfl (hdis g (List.mem_cons_self _ _) g (List.mem_cons_self _ _))
  obtain ⟨herr, hheap, hoth⟩ := MapStructs_spec hd hs hwf
  rw [copyFields_flat fs fd hdecl, flatFields_disjoint fs fd hdis] at herr hheap
  refine ⟨herr, ?_⟩
  funext b
  by_cases e : b = da
  · subst e
    rw [hheap, hd]
  · exact hoth b e

/-- Witness for `disjoint_names`: the destination `struct{ Inner; Price float64 }`
with its embedded struct, and a source `struct{ CorrelationNumber int }`, whose
field name is neither declared in the destination nor promoted into it. -/
theorem disjoint_names_witness :
    ((∀ g ∈ (disjointHeap 1).fields, ∀ f ∈ (disjointHeap 0).fields, f.name ≠ g.name) ∧
      DeclaredOnly (disjointHeap 0).fields (disjointHeap 1).fields ∧
      (disjointHeap 0).fields.any (fun f => f.embedded) = true) ∧
    ((MapStructs disjointHeap (Arg.ptr (some 0)) (Arg.ptr (some 1))).err = none ∧
      (MapStructs disjointHeap (Arg.ptr (some 0)) (Arg.ptr (some 1))).heap = disjointHeap) :=
  ⟨by decide,
    disjoint_names disjointHeap 0 1 (disjointHeap 0).fields (disjointHeap 1).fields rfl rfl
      (by decide) (by decide)⟩

/-! ## Idempotence

Every iteration stores a value that does not depend on the destination, at a
place that depends on the declared part of the destination only.  A second run
therefore repeats the stores of the first, and repeating a list of such stores
changes nothing. -/

theorem Vals.modify_modify (f g : Val → Val) (i : Nat) (vs : Vals) :
    Vals.modify f i (Vals.modify g i vs) = Vals.modify (fun v => f (g v)) i vs := by
  induction i generalizing vs with
  | zero => cases vs <;> rfl
  | succ i ih =>
    cases vs with
    | nil => rfl
    | cons v vs => simp only [Vals.modify, ih]

theorem Vals.modify_comm (f g : Val → Val) {i k : Nat} (hik : i ≠ k) (vs : Vals) :
    Vals.modify f i (Vals.modify g k vs) = Vals.modify g k (Vals.modify f i vs) := by
  induction i generalizing k vs with
  | zero =>
    cases k with
    | zero => exact absurd rfl hik
    | succ k => cases vs <;> rfl
  | succ i ih =>
    cases k with
    | zero => cases vs <;> rfl
    | succ k =>
      cases vs with
      | nil => rfl
      | cons v vs =>
        simp only [Vals.modify]
        rw [ih (fun e => hik (by rw [e]))]

theorem Vals.modify_congr {f g : Val → Val} (hfg : ∀ v, f v = g v) (i : Nat) (vs : Vals) :
    Vals.modify f i vs = Vals.modify g i vs := by
  have : f = g := funext hfg
  rw [this]

theorem Val.write_idem (p : List Nat) (w v : Val) :
    Val.write p w (Val.write p w v) = Val.write p w v := by
  induction p generalizing v with
  | nil => simp [Val.write]
  | cons i p ih =>
    cases v <;> simp only [Val.write]
    rw [Vals.modify_modify]
    exact congrArg Val.struct (Vals.modify_congr ih i _)

/-- A store, another store, and the first store again leave what the other
store followed by the first store leaves. -/
theorem Val.write_law (p q : List Nat) (c d v : Val) :
    Val.write p c (Val.write q d (Val.write p c v)) = Val.write p c (Val.write q d v) := by
  induction p generalizing q v with
  | nil => simp [Val.write]
  | cons i p ih =>
    cases q with
    | nil => simp [Val.write]
    | cons k q =>
      cases v <;> simp only [Val.write]
      rename_i vs
      apply congrArg Val.struct
      by_cases hik : i = k
      · subst hik
        rw [Vals.modify_modify, Vals.modify_modify, Vals.modify_modify]
        exact Vals.modify_congr (fun v => ih q v) i vs
      · rw [Vals.modify_comm (Val.write q d) (Val.write p c) (fun e => hik e.symm) vs,
          Vals.modify_modify]
        exact Vals.modify_congr (fun v => Val.write_idem p c v) i _

theorem list_modify_modify {α : Type} (f g : α → α) (i : Nat) (l : List α) :
    (l.modify g i).modify f i = l.modify (fun v => f (g v)) i := by
  induction l generalizing i with
  | nil => simp
  | cons a l ih =>
    cases i with
    | zero => simp
    | succ i => simp [ih]

theorem list_modify_comm {α : Type} (f g : α → α) {i k : Nat} (hik : i ≠ k) (l : List α) :
    (l.modify g k).modify f i = (l.modify f i).modify g k := by
  induction l generalizing i k with
  | nil => simp
  | cons a l ih =>
    cases i with
    | zero =>
      cases k with
      | zero => exact absurd rfl hik
      | succ k => simp
    | succ i =>
      cases k with
      | zero => simp
      | succ k =>
        simp only [List.modify_succ_cons]
        rw [ih (fun e => hik (by rw [e]))]

theorem writeField_idem (p : List Nat) (w : Val) (f : Field) :
    writeField p w (writeField p w f) = writeField p w f := by
  simp [writeField, setVal, Val.write_idem]

theorem writeField_law (p q : List Nat) (c d : Val) (f : Field) :
    writeField p c (writeField q d (writeField p c f)) = writeField p c (writeField q d f) := by
  simp [writeField, setVal, Val.write_law]

theorem storeFields_idem (p : List Nat) (w : Val) (fd : List Field) :
    storeFields p w (storeFields p w fd) = storeFields p w fd := by
  cases p with
  | nil => rfl
  | cons i p =>
    show (fd.modify (writeField p w) i).modify (writeField p w) i = fd.modify (writeField p w) i
    rw [list_modify_modify]
    exact congrArg (fun k => fd.modify k i) (funext (writeField_idem p w))

theorem storeFields_law (p q : List Nat) (c d : Val) (fd : List Field) :
    storeFields p c (storeFields q d (storeFields p c fd)) =
      storeFields p c (storeFields q d fd) := by
  cases p with
  | nil => rfl
  | cons i p =>
    cases q with
    | nil => exact storeFields_idem (i :: p) c fd
    | cons k q =>
      show ((fd.modify (writeField p c) i).modify (writeField q d) k).modify (writeField p c) i =
        (fd.modify (writeField q d) k).modify (writeField p c) i
      by_cases hik : i = k
      · subst hik
        rw [list_modify_modify, list_modify_modify, list_modify_modify]
        exact congrArg (fun k => fd.modify k i) (funext (writeField_law p q c d))
      · rw [← list_modify_comm (writeField p c) (writeField q d) hik fd, list_modify_modify]
        exact congrArg (fun j => (fd.modify (writeField q d) k).modify j i)
          (funext (writeField_idem p c))

theorem apply_law (a b : Step) (fd : List Field) :
    a.apply (b.apply (a.apply fd)) = a.apply (b.apply fd) := by
  cases a with
  | skip => rfl
  | fail p => rfl
  | write p c =>
    cases b with
    | skip => exact storeFields_idem p c fd
    | fail q => exact storeFields_idem p c fd
    | write q d => exact storeFields_law p q c d fd

theorem applyAll_append (ss ts : List Step) (fd : List Field) :
    applyAll (ss ++ ts) fd = applyAll ts (applyAll ss fd) := by
  induction ss generalizing fd with
  | nil => rfl
  | cons s ss ih =>
    show applyAll (ss ++ ts) (s.apply fd) = applyAll ts (applyAll ss (s.apply fd))
    exact ih (s.apply fd)

/-- A step that is run again after further steps absorbs its earlier run. -/
theorem apply_absorb (a : Step) (ss : List Step) :
    ∀ fd : List Field, a.apply (applyAll ss (a.apply fd)) = a.apply (applyAll ss fd) := by
  induction ss with
  | nil =>
    intro fd
    have := apply_law a Step.skip fd
    simpa [applyAll, Step.apply] using this
  | cons s ss ih =>
    intro fd
    simp only [applyAll]
    rw [← ih (s.apply (a.apply fd)), apply_law a s fd, ih (s.apply fd)]

theorem applyAll_covered (A B : List Step) (hAB : ∀ a ∈ A, a ∈ B) :
    ∀ fd : List Field, applyAll B (applyAll A fd) = applyAll B fd := by
  induction A with
  | nil => intro fd; rfl
  | cons a A ih =>
    intro fd
    simp only [applyAll]
    rw [ih (fun x hx => hAB x (List.mem_cons_of_mem _ hx)) (a.apply fd)]
    obtain ⟨B1, B2, hB⟩ := List.append_of_mem (hAB a (List.mem_cons_self _ _))
    rw [hB, applyAll_append, applyAll_append]
    simp only [applyAll]
    rw [apply_absorb a B1 fd]

theorem applyAll_again (ss : List Step) (fd : List Field) :
    applyAll ss (applyAll ss fd) = applyAll ss fd :=
  applyAll_covered ss ss (fun _ h => h) fd

theorem decl_applyAll (ss : List Step) :
    ∀ fd : List Field, (applyAll ss fd).map Field.decl = fd.map Field.decl := by
  induction ss with
  | nil => intro fd; rfl
  | cons s ss ih =>
    intro fd
    simp only [applyAll]
    rw [ih, decl_apply]

/-- The iterations are the steps planned on the declared part of the
destination, run up to the first panic. -/
theorem copyFields_steps (fs : List Field) (fd : List Field) :
    ∀ x : List Field, x.map Field.decl = fd.map Field.decl →
      copyFields x fs =
        (applyAll (stepsRun (fs.map (plan fd))) x, firstFail (fs.map (plan fd))) := by
  induction fs with
  | nil => intro x _; rfl
  | cons g gs ih =>
    intro x hx
    have hp := plan_decl hx g
    unfold copyFields copyField
    rw [hp]
    cases hq : plan fd g with
    | skip =>
      simp only [List.map_cons, hq, stepsRun, firstFail, applyAll, Step.apply]
      exact ih x hx
    | fail p =>
      simp only [List.map_cons, hq, stepsRun, firstFail, applyAll]
    | write p w =>
      simp only [List.map_cons, hq, stepsRun, firstFail, applyAll, Step.apply]
      exact ih (storeFields p w x) ((decl_store p w x).trans hx)

/-- Running the iterations again, from the destination fields they left,
ends in the same fields and the same panic, if any. -/
theorem copyFields_idem (fs fd : List Field) :
    copyFields (copyFields fd fs).1 fs = copyFields fd fs := by
  rw [copyFields_steps fs fd fd rfl]
  rw [copyFields_steps fs fd _ (decl_applyAll _ fd)]
  rw [applyAll_again]

theorem copyFields_self (fs gs : List Field) (hd : DistinctNames fs)
    (hsub : ∀ g ∈ gs, g ∈ fs) : copyFields fs gs = (fs, none) := by
  induction gs with
  | nil => rfl
  | cons g gs ih =>
    obtain ⟨i, hi⟩ := List.mem_iff_getElem?.mp (hsub g (List.mem_cons_self _ _))
    unfold copyFields
    rw [copyField_self hd hi]
    exact ih (fun g1 hg1 => hsub g1 (List.mem_cons_of_mem _ hg1))

/-- C8: on two records, a second call right after the first raises the same
panic as the first, or none when the first raised none, and leaves the memory
exactly as the first call left it. -/
theorem idempotent (h : Heap) (da sa : Addr) (fd fs : List Field)
    (hd : h da = Obj.struct fd) (hs : h sa = Obj.struct fs) (ws : DistinctNames fs) :
    (MapStructs (MapStructs h (Arg.ptr (some da)) (Arg.ptr (some sa))).heap
        (Arg.ptr (some da)) (Arg.ptr (some sa))).err =
      (MapStructs h (Arg.ptr (some da)) (Arg.ptr (some sa))).err ∧
    (MapStructs (MapStructs h (Arg.ptr (some da)) (Arg.ptr (some sa))).heap
        (Arg.ptr (some da)) (Arg.ptr (some sa))).heap =
      (MapStructs h (Arg.ptr (some da)) (Arg.ptr (some sa))).heap := by
  obtain ⟨herr, hheap, hoth⟩ := MapStructs_spec hd hs (fun _ => ws)
  have hs1 : (MapStructs h (Arg.ptr (some da)) (Arg.ptr (some sa))).heap sa = Obj.struct fs := by
    by_cases e : sa = da
    · subst e
      rw [hs] at hd
      have e1 := Obj.struct.inj hd
      subst e1
      rw [hheap, copyFields_self fs fs ws (fun g hg => hg)]
    · rw [hoth sa e, hs]
  obtain ⟨herr2, hheap2, hoth2⟩ := MapStructs_spec hheap hs1 (fun _ => ws)
  rw [copyFields_idem fs fd] at herr2 hheap2
  refine ⟨herr2.trans herr.symm, ?_⟩
  funext b
  by_cases e : b = da
  · subst e
    rw [hheap2, hheap]
  · exact hoth2 b e

/-- Witness for `idempotent`: the call of `main`, made twice. -/
theorem idempotent_witness :
    (MapStructs (MapStructs mainHeap (Arg.ptr (some 0)) (Arg.ptr (some 1))).heap
        (Arg.ptr (some 0)) (Arg.ptr (some 1))).err =
      (MapStructs mainHeap (Arg.ptr (some 0)) (Arg.ptr (some 1))).err ∧
    (MapStructs (MapStructs mainHeap (Arg.ptr (some 0)) (Arg.ptr (some 1))).heap
        (Arg.ptr (some 0)) (Arg.ptr (some 1))).heap =
      (MapStructs mainHeap (Arg.ptr (some 0)) (Arg.ptr (some 1))).heap :=
  idempotent mainHeap 0 1 product.fields productPart.fields rfl rfl (by decide)

/-! ## How far the panic on a type mismatch reaches -/

theorem NumField_layout {h h1 : Heap} (hl : ∀ b, (h1 b).layout = (h b).layout) (v : Value) :
    NumField h1 v = NumField h v := by
  cases v with
  | zero => rfl
  | var a =>
    have e := hl a
    simp only [NumField]
    cases h1a : h1 a with
    | struct fs1 =>
      cases ha : h a with
      | struct fs =>
        rw [h1a, ha] at e
        simp only [Obj.layout, Obj.struct.injEq] at e
        have := congrArg List.length e
        simp only [List.length_map] at this
        simp [this]
      | other t v => rw [h1a, ha] at e; simp [Obj.layout] at e
    | other t1 v1 =>
      cases ha : h a with
      | struct fs => rw [h1a, ha] at e; simp [Obj.layout] at e
      | other t v => rfl

/-- The bound of the loop is the same before and after any number of
iterations: evaluating `srcVal.NumField()` once is evaluating it at every
test of the loop condition. -/
theorem NumField_forLoop (dv sv : Value) (r i : Nat) (h : Heap) (v : Value) :
    NumField (forLoop dv sv r i h).heap v = NumField h v :=
  NumField_layout (forLoop_frame dv sv r i h).2 v

/-- The panic on a type mismatch is general: on two records, a source field
whose name leads to an exported declared destination field of a type that does
not accept its value makes the call panic, and that destination field keeps
its value. -/
theorem mismatch_always_panics (h : Heap) (da sa : Addr) (fd fs : List Field)
    (hd : h da = Obj.struct fd) (hs : h sa = Obj.struct fs)
    (wd : DistinctNames fd) (ws : DistinctNames fs) (hdecl : DeclaredOnly fd fs)
    (g : Field) (hg : g ∈ fs) (j : Nat) (f : Field) (hf : fd[j]? = some f)
    (hn : g.name = f.name) (he : isExported f.name = true)
    (hbad : assignTo f.typ g.typ g.val = none) :
    (MapStructs h (Arg.ptr (some da)) (Arg.ptr (some sa))).err ≠ none ∧
    ∃ fd1, (MapStructs h (Arg.ptr (some da)) (Arg.ptr (some sa))).heap da = Obj.struct fd1 ∧
      fd1[j]? = some f := by
  obtain ⟨herr, hheap, _⟩ := MapStructs_spec hd hs (fun _ => ws)
  rw [copyFields_flat fs fd hdecl] at herr hheap
  have hj : fieldIndex g.name fd = some j := by
    rw [hn]
    exact fieldIndex_unique wd hf he
  refine ⟨?_, (flatFields fd fs).1, hheap, ?_⟩
  · intro hnone
    rw [herr] at hnone
    have key := (flatFields_written fs fd g j f ws hnone hg hj hf he).1
    rw [hbad] at key
    simp at key
  · apply flatFields_kept fs fd j f hf
    intro g1 hg1 hn1 _
    have e := member_unique ws hg hg1 (hn1.trans hn.symm) (by rw [hn]; exact he)
    rw [e]
    exact hbad

/-! ## Order of the source fields, for calls that return -/

/-- The order of the source fields matters through a panic only: when the
call on a source record returns, the call on a record with the same fields in
another order returns as well and leaves the same destination. -/
theorem order_independent_on_return (h : Heap) (da sa sb : Addr) (fd fs fs1 : List Field)
    (hd : h da = Obj.struct fd) (hs : h sa = Obj.struct fs) (hs1 : h sb = Obj.struct fs1)
    (hp : fs1.Perm fs) (wd : DistinctNames fd) (ws : DistinctNames fs)
    (hdecl : DeclaredOnly fd fs)
    (hret : (MapStructs h (Arg.ptr (some da)) (Arg.ptr (some sa))).err = none) :
    (MapStructs h (Arg.ptr (some da)) (Arg.ptr (some sb))).err = none ∧
    (MapStructs h (Arg.ptr (some da)) (Arg.ptr (some sb))).heap da =
      (MapStructs h (Arg.ptr (some da)) (Arg.ptr (some sa))).heap da := by
  obtain ⟨herr, hheap, _⟩ := MapStructs_spec hd hs (fun _ => ws)
  obtain ⟨herr1, hheap1, _⟩ := MapStructs_spec hd hs1 (fun _ => distinct_perm hp ws)
  have hdecl1 : DeclaredOnly fd fs1 := fun g hg => hdecl g (hp.mem_iff.mp hg)
  rw [copyFields_flat fs fd hdecl] at herr hheap
  rw [copyFields_flat fs1 fd hdecl1] at herr1 hheap1
  rw [herr] at hret
  have key := flatFields_perm hp wd ws hret
  rw [herr1, hheap1, hheap, key]
  exact ⟨hret, rfl⟩

/-! ## The search for promoted fields at concrete types -/

/-- The rule of `FieldByName` at concrete struct types: a declared field hides
a promoted one; a field two levels down is found; two fields of the name at
the same depth cancel each other; the shallower of two wins; a struct field
that is not embedded promotes nothing. -/
theorem structFieldByName_examples :
    structFieldByName "ID"
        [⟨"Inner", innerType, Val.nil, true⟩, ⟨"ID", GoType.int, Val.nil, false⟩] =
      some ([1], GoType.int) ∧
    structFieldByName "ID"
        [⟨"Outer", GoType.struct "Outer" (Decls.cons "Inner" true innerType Decls.nil),
          Val.nil, true⟩] =
      some ([0, 0, 0], GoType.string) ∧
    structFieldByName "ID"
        [⟨"Inner", innerType, Val.nil, true⟩,
          ⟨"Other", GoType.struct "Other" (Decls.cons "ID" false GoType.int Decls.nil),
            Val.nil, true⟩] =
      none ∧
    structFieldByName "ID"
        [⟨"Outer", GoType.struct "Outer" (Decls.cons "Inner" true innerType Decls.nil),
          Val.nil, true⟩,
          ⟨"Other", GoType.struct "Other" (Decls.cons "ID" false GoType.int Decls.nil),
            Val.nil, true⟩] =
      some ([1, 0], GoType.int) ∧
    structFieldByName "ID" [⟨"Inner", innerType, Val.nil, false⟩] = none := by
  decide

/-- Two calls that meet an embedded struct.  A source field `ID` is stored in
the field `ID` promoted from the embedded struct `inner`, although the name
`inner` is unexported.  A source field `Inner` of struct type is copied whole
into the declared field `Inner` of the same type. -/
theorem embedded_examples :
    (MapStructs
        (fun a =>
          if a = 0 then
            Obj.struct [⟨"inner", GoType.struct "inner" (Decls.cons "ID" false GoType.string Decls.nil),
              Val.struct (Vals.cons (Val.str "") Vals.nil), true⟩]
          else Obj.struct [⟨"ID", GoType.string, Val.str "Lock", false⟩])
        (Arg.ptr (some 0)) (Arg.ptr (some 1))).heap 0 =
      Obj.struct [⟨"inner", GoType.struct "inner" (Decls.cons "ID" false GoType.string Decls.nil),
        Val.struct (Vals.cons (Val.str "Lock") Vals.nil), true⟩] ∧
    (MapStructs
        (fun a =>
          if a = 0 then
            Obj.struct [⟨"Inner", innerType, Val.struct (Vals.cons (Val.str "") Vals.nil), false⟩]
          else
            Obj.struct [⟨"Inner", innerType, Val.struct (Vals.cons (Val.str "x") Vals.nil), true⟩])
        (Arg.ptr (some 0)) (Arg.ptr (some 1))).heap 0 =
      Obj.struct [⟨"Inner", innerType, Val.struct (Vals.cons (Val.str "x") Vals.nil), false⟩] := by
  decide

end MapStructsModel
